import Mathlib

/- Verification of the kzg-rs library (KZG polynomial-commitment verification over
BLS12-381, EIP-4844).  The scalar field of BLS12-381 is modelled as ZMod rBLS; the
G1/G2 groups, the pairing and SHA-256 live in external crates and are modelled as
parameters of a CurveModel structure.  Machine integers are modelled as Nat, bytes
as Nat values below 256. -/

/-- Order of the BLS12-381 scalar field F_r, the modulus of the external
bls12_381::Scalar type (0x73eda753299d7d483339d80809a1d80553bda402fffe5bfeffffffff00000001). -/
def rBLS : Nat := 52435875175126190479447740508185965837690552500527637822603658699938581184513

/-- Fuel-based fast modular exponentiation, used only to evaluate the Lucas
primality certificate for rBLS inside the kernel. -/
def powModFuel : Nat → Nat → Nat → Nat → Nat
  | 0, _, _, m => 1 % m
  | fuel + 1, b, e, m =>
    if e = 0 then 1 % m
    else
      let t := powModFuel fuel (b * b % m) (e / 2) m
      if e % 2 = 1 then (b % m) * t % m else t

theorem powModFuel_eq (fuel : Nat) : ∀ b e m : Nat, 0 < m → e < 2 ^ fuel →
    powModFuel fuel b e m = b ^ e % m := by
  induction fuel with
  | zero =>
    intro b e m hm he
    interval_cases e
    simp [powModFuel]
  | succ f ih =>
    intro b e m hm he
    rcases Nat.eq_zero_or_pos e with he0 | hepos
    · subst he0; simp [powModFuel]
    · have hne : e ≠ 0 := Nat.pos_iff_ne_zero.mp hepos
      have hdiv : e / 2 < 2 ^ f := by
        have h2 : e < 2 ^ f * 2 := by
          calc e < 2 ^ (f + 1) := he
          _ = 2 ^ f * 2 := by ring
        omega
      have ht : powModFuel f (b * b % m) (e / 2) m = (b * b % m) ^ (e / 2) % m :=
        ih (b * b % m) (e / 2) m hm hdiv
      have hbb : (b * b % m) ^ (e / 2) % m = (b * b) ^ (e / 2) % m := by
        rw [Nat.pow_mod, Nat.mod_mod_of_dvd, ← Nat.pow_mod]
        exact dvd_refl m
      have hsplit : b ^ e = (b * b) ^ (e / 2) * b ^ (e % 2) := by
        conv_lhs => rw [← Nat.div_add_mod e 2]
        rw [pow_add, pow_mul, pow_two]
      rcases Nat.mod_two_eq_zero_or_one e with hpar | hpar
      · have : powModFuel (f + 1) b e m = powModFuel f (b * b % m) (e / 2) m := by
          simp [powModFuel, hne, hpar]
        rw [this, ht, hbb, hsplit, hpar, pow_zero, mul_one]
      · have : powModFuel (f + 1) b e m = (b % m) * powModFuel f (b * b % m) (e / 2) m % m := by
          simp [powModFuel, hne, hpar]
        rw [this, ht, hbb, hsplit, hpar, pow_one,
          Nat.mul_mod ((b * b) ^ (e / 2)) b m,
          Nat.mul_comm ((b * b) ^ (e / 2) % m) (b % m)]

theorem rBLS_pos : 0 < rBLS := by decide

theorem zmod_pow_eq (b e : Nat) (he : e < 2 ^ 256) :
    (b : ZMod rBLS) ^ e = ((powModFuel 256 b e rBLS : Nat) : ZMod rBLS) := by
  rw [powModFuel_eq 256 b e rBLS rBLS_pos he, ZMod.natCast_mod, Nat.cast_pow]

theorem natCast_ne_one_of (v : Nat) (h1 : v ≠ 1) (h2 : v < rBLS) :
    ((v : Nat) : ZMod rBLS) ≠ 1 := by
  intro h
  have hv : ((v : Nat) : ZMod rBLS).val = v := ZMod.val_cast_of_lt h2
  have h1' : ((1 : Nat) : ZMod rBLS).val = 1 := ZMod.val_cast_of_lt (by decide)
  rw [h, ← Nat.cast_one (R := ZMod rBLS), h1'] at hv
  exact h1 hv.symm

theorem zmodn_pow_eq (n b e : Nat) (hn : 0 < n) (he : e < 2 ^ 256) :
    ((b : Nat) : ZMod n) ^ e = ((powModFuel 256 b e n : Nat) : ZMod n) := by
  rw [powModFuel_eq 256 b e n hn he, ZMod.natCast_mod, Nat.cast_pow]

theorem zmodn_cast_ne_one (n v : Nat) (hn : 1 < n) (h1 : v ≠ 1) (h2 : v < n) :
    ((v : Nat) : ZMod n) ≠ 1 := by
  intro h
  have hv : ((v : Nat) : ZMod n).val = v := ZMod.val_cast_of_lt h2
  have h1v : ((1 : Nat) : ZMod n).val = 1 := ZMod.val_cast_of_lt hn
  rw [h, ← Nat.cast_one (R := ZMod n), h1v] at hv
  exact h1 hv.symm

theorem pratt_pow_ne_one (n a e : Nat) (hn : 1 < n) (he : e < 2 ^ 256)
    (hne : powModFuel 256 a e n ≠ 1) (hlt : powModFuel 256 a e n < n) :
    ((a : Nat) : ZMod n) ^ e ≠ 1 := by
  rw [zmodn_pow_eq n a e (by omega) he]
  exact zmodn_cast_ne_one n _ hn hne hlt

theorem pratt_pow_eq_one (n a : Nat) (hn : 0 < n) (he : n - 1 < 2 ^ 256)
    (h1 : powModFuel 256 a (n - 1) n = 1) :
    ((a : Nat) : ZMod n) ^ (n - 1) = 1 := by
  rw [zmodn_pow_eq n a (n - 1) hn he, h1, Nat.cast_one]


theorem prime_1607 : Nat.Prime 1607 := by
  have hfact : (1607 : Nat) - 1 = 2 * (11 * (73)) := by norm_num
  refine lucas_primality 1607 ((5 : Nat) : ZMod 1607)
    (pratt_pow_eq_one 1607 5 (by norm_num) (by decide) (by decide)) ?_
  intro q hq hdvd
  rw [hfact] at hdvd
  rcases (Nat.Prime.dvd_mul hq).mp hdvd with h | h
  · rw [(Nat.prime_dvd_prime_iff_eq hq (by norm_num)).mp h]
    exact pratt_pow_ne_one 1607 5 ((1607 - 1) / 2) (by norm_num)
      (by decide) (by decide) (by decide)
  rcases (Nat.Prime.dvd_mul hq).mp h with h | h
  · rw [(Nat.prime_dvd_prime_iff_eq hq (by norm_num)).mp h]
    exact pratt_pow_ne_one 1607 5 ((1607 - 1) / 11) (by norm_num)
      (by decide) (by decide) (by decide)
  · rw [(Nat.prime_dvd_prime_iff_eq hq (by norm_num)).mp h]
    exact pratt_pow_ne_one 1607 5 ((1607 - 1) / 73) (by norm_num)
      (by decide) (by decide) (by decide)

theorem prime_20921 : Nat.Prime 20921 := by
  have hfact : (20921 : Nat) - 1 = 2 ^ 3 * (5 * (523)) := by norm_num
  refine lucas_primality 20921 ((3 : Nat) : ZMod 20921)
    (pratt_pow_eq_one 20921 3 (by norm_num) (by decide) (by decide)) ?_
  intro q hq hdvd
  rw [hfact] at hdvd
  rcases (Nat.Prime.dvd_mul hq).mp hdvd with h | h
  · have hq2 := Nat.Prime.dvd_of_dvd_pow hq h
    rw [(Nat.prime_dvd_prime_iff_eq hq (by norm_num)).mp hq2]
    exact pratt_pow_ne_one 20921 3 ((20921 - 1) / 2) (by norm_num)
      (by decide) (by decide) (by decide)
  rcases (Nat.Prime.dvd_mul hq).mp h with h | h
  · rw [(Nat.prime_dvd_prime_iff_eq hq (by norm_num)).mp h]
    exact pratt_pow_ne_one 20921 3 ((20921 - 1) / 5) (by norm_num)
      (by decide) (by decide) (by decide)
  · rw [(Nat.prime_dvd_prime_iff_eq hq (by norm_num)).mp h]
    exact pratt_pow_ne_one 20921 3 ((20921 - 1) / 523) (by norm_num)
      (by decide) (by decide) (by decide)

theorem prime_18329 : Nat.Prime 18329 := by
  have hfact : (18329 : Nat) - 1 = 2 ^ 3 * (29 * (79)) := by norm_num
  refine lucas_primality 18329 ((3 : Nat) : ZMod 18329)
    (pratt_pow_eq_one 18329 3 (by norm_num) (by decide) (by decide)) ?_
  intro q hq hdvd
  rw [hfact] at hdvd
  rcases (Nat.Prime.dvd_mul hq).mp hdvd with h | h
  · have hq2 := Nat.Prime.dvd_of_dvd_pow hq h
    rw [(Nat.prime_dvd_prime_iff_eq hq (by norm_num)).mp hq2]
    exact pratt_pow_ne_one 18329 3 ((18329 - 1) / 2) (by norm_num)
      (by decide) (by decide) (by decide)
  rcases (Nat.Prime.dvd_mul hq).mp h with h | h
  · rw [(Nat.prime_dvd_prime_iff_eq hq (by norm_num)).mp h]
    exact pratt_pow_ne_one 18329 3 ((18329 - 1) / 29) (by norm_num)
      (by decide) (by decide) (by decide)
  · rw [(Nat.prime_dvd_prime_iff_eq hq (by norm_num)).mp h]
    exact pratt_pow_ne_one 18329 3 ((18329 - 1) / 79) (by norm_num)
      (by decide) (by decide) (by decide)

theorem prime_110573 : Nat.Prime 110573 := by
  have hfact : (110573 : Nat) - 1 = 2 ^ 2 * (7 * (11 * (359))) := by norm_num
  refine lucas_primality 110573 ((3 : Nat) : ZMod 110573)
    (pratt_pow_eq_one 110573 3 (by norm_num) (by decide) (by decide)) ?_
  intro q hq hdvd
  rw [hfact] at hdvd
  rcases (Nat.Prime.dvd_mul hq).mp hdvd with h | h
  · have hq2 := Nat.Prime.dvd_of_dvd_pow hq h
    rw [(Nat.prime_dvd_prime_iff_eq hq (by norm_num)).mp hq2]
    exact pratt_pow_ne_one 110573 3 ((110573 - 1) / 2) (by norm_num)
      (by decide) (by decide) (by decide)
  rcases (Nat.Prime.dvd_mul hq).mp h with h | h
  · rw [(Nat.prime_dvd_prime_iff_eq hq (by norm_num)).mp h]
    exact pratt_pow_ne_one 110573 3 ((110573 - 1) / 7) (by norm_num)
      (by decide) (by decide) (by decide)
  rcases (Nat.Prime.dvd_mul hq).mp h with h | h
  · rw [(Nat.prime_dvd_prime_iff_eq hq (by norm_num)).mp h]
    exact pratt_pow_ne_one 110573 3 ((110573 - 1) / 11) (by norm_num)
      (by decide) (by decide) (by decide)
  · rw [(Nat.prime_dvd_prime_iff_eq hq (by norm_num)).mp h]
    exact pratt_pow_ne_one 110573 3 ((110573 - 1) / 359) (by norm_num)
      (by decide) (by decide) (by decide)

theorem prime_47737 : Nat.Prime 47737 := by
  have hfact : (47737 : Nat) - 1 = 2 ^ 3 * (3 ^ 3 * (13 * (17))) := by norm_num
  refine lucas_primality 47737 ((5 : Nat) : ZMod 47737)
    (pratt_pow_eq_one 47737 5 (by norm_num) (by decide) (by decide)) ?_
  intro q hq hdvd
  rw [hfact] at hdvd
  rcases (Nat.Prime.dvd_mul hq).mp hdvd with h | h
  · have hq2 := Nat.Prime.dvd_of_dvd_pow hq h
    rw [(Nat.prime_dvd_prime_iff_eq hq (by norm_num)).mp hq2]
    exact pratt_pow_ne_one 47737 5 ((47737 - 1) / 2) (by norm_num)
      (by decide) (by decide) (by decide)
  rcases (Nat.Prime.dvd_mul hq).mp h with h | h
  · have hq2 := Nat.Prime.dvd_of_dvd_pow hq h
    rw [(Nat.prime_dvd_prime_iff_eq hq (by norm_num)).mp hq2]
    exact pratt_pow_ne_one 47737 5 ((47737 - 1) / 3) (by norm_num)
      (by decide) (by decide) (by decide)
  rcases (Nat.Prime.dvd_mul hq).mp h with h | h
  · rw [(Nat.prime_dvd_prime_iff_eq hq (by norm_num)).mp h]
    exact pratt_pow_ne_one 47737 5 ((47737 - 1) / 13) (by norm_num)
      (by decide) (by decide) (by decide)
  · rw [(Nat.prime_dvd_prime_iff_eq hq (by norm_num)).mp h]
    exact pratt_pow_ne_one 47737 5 ((47737 - 1) / 17) (by norm_num)
      (by decide) (by decide) (by decide)

theorem prime_609743 : Nat.Prime 609743 := by
  have hfact : (609743 : Nat) - 1 = 2 * (7 * (97 * (449))) := by norm_num
  refine lucas_primality 609743 ((5 : Nat) : ZMod 609743)
    (pratt_pow_eq_one 609743 5 (by norm_num) (by decide) (by decide)) ?_
  intro q hq hdvd
  rw [hfact] at hdvd
  rcases (Nat.Prime.dvd_mul hq).mp hdvd with h | h
  · rw [(Nat.prime_dvd_prime_iff_eq hq (by norm_num)).mp h]
    exact pratt_pow_ne_one 609743 5 ((609743 - 1) / 2) (by norm_num)
      (by decide) (by decide) (by decide)
  rcases (Nat.Prime.dvd_mul hq).mp h with h | h
  · rw [(Nat.prime_dvd_prime_iff_eq hq (by norm_num)).mp h]
    exact pratt_pow_ne_one 609743 5 ((609743 - 1) / 7) (by norm_num)
      (by decide) (by decide) (by decide)
  rcases (Nat.Prime.dvd_mul hq).mp h with h | h
  · rw [(Nat.prime_dvd_prime_iff_eq hq (by norm_num)).mp h]
    exact pratt_pow_ne_one 609743 5 ((609743 - 1) / 97) (by norm_num)
      (by decide) (by decide) (by decide)
  · rw [(Nat.prime_dvd_prime_iff_eq hq (by norm_num)).mp h]
    exact pratt_pow_ne_one 609743 5 ((609743 - 1) / 449) (by norm_num)
      (by decide) (by decide) (by decide)

theorem prime_2653753 : Nat.Prime 2653753 := by
  have hfact : (2653753 : Nat) - 1 = 2 ^ 3 * (3 * (110573)) := by norm_num
  refine lucas_primality 2653753 ((5 : Nat) : ZMod 2653753)
    (pratt_pow_eq_one 2653753 5 (by norm_num) (by decide) (by decide)) ?_
  intro q hq hdvd
  rw [hfact] at hdvd
  rcases (Nat.Prime.dvd_mul hq).mp hdvd with h | h
  · have hq2 := Nat.Prime.dvd_of_dvd_pow hq h
    rw [(Nat.prime_dvd_prime_iff_eq hq (by norm_num)).mp hq2]
    exact pratt_pow_ne_one 2653753 5 ((2653753 - 1) / 2) (by norm_num)
      (by decide) (by decide) (by decide)
  rcases (Nat.Prime.dvd_mul hq).mp h with h | h
  · rw [(Nat.prime_dvd_prime_iff_eq hq (by norm_num)).mp h]
    exact pratt_pow_ne_one 2653753 5 ((2653753 - 1) / 3) (by norm_num)
      (by decide) (by decide) (by decide)
  · rw [(Nat.prime_dvd_prime_iff_eq hq prime_110573).mp h]
    exact pratt_pow_ne_one 2653753 5 ((2653753 - 1) / 110573) (by norm_num)
      (by decide) (by decide) (by decide)

theorem prime_63690073 : Nat.Prime 63690073 := by
  have hfact : (63690073 : Nat) - 1 = 2 ^ 3 * (3 * (2653753)) := by norm_num
  refine lucas_primality 63690073 ((7 : Nat) : ZMod 63690073)
    (pratt_pow_eq_one 63690073 7 (by norm_num) (by decide) (by decide)) ?_
  intro q hq hdvd
  rw [hfact] at hdvd
  rcases (Nat.Prime.dvd_mul hq).mp hdvd with h | h
  · have hq2 := Nat.Prime.dvd_of_dvd_pow hq h
    rw [(Nat.prime_dvd_prime_iff_eq hq (by norm_num)).mp hq2]
    exact pratt_pow_ne_one 63690073 7 ((63690073 - 1) / 2) (by norm_num)
      (by decide) (by decide) (by decide)
  rcases (Nat.Prime.dvd_mul hq).mp h with h | h
  · rw [(Nat.prime_dvd_prime_iff_eq hq (by norm_num)).mp h]
    exact pratt_pow_ne_one 63690073 7 ((63690073 - 1) / 3) (by norm_num)
      (by decide) (by decide) (by decide)
  · rw [(Nat.prime_dvd_prime_iff_eq hq prime_2653753).mp h]
    exact pratt_pow_ne_one 63690073 7 ((63690073 - 1) / 2653753) (by norm_num)
      (by decide) (by decide) (by decide)

theorem prime_10177 : Nat.Prime 10177 := by
  have hfact : (10177 : Nat) - 1 = 2 ^ 6 * (3 * (53)) := by norm_num
  refine lucas_primality 10177 ((7 : Nat) : ZMod 10177)
    (pratt_pow_eq_one 10177 7 (by norm_num) (by decide) (by decide)) ?_
  intro q hq hdvd
  rw [hfact] at hdvd
  rcases (Nat.Prime.dvd_mul hq).mp hdvd with h | h
  · have hq2 := Nat.Prime.dvd_of_dvd_pow hq h
    rw [(Nat.prime_dvd_prime_iff_eq hq (by norm_num)).mp hq2]
    exact pratt_pow_ne_one 10177 7 ((10177 - 1) / 2) (by norm_num)
      (by decide) (by decide) (by decide)
  rcases (Nat.Prime.dvd_mul hq).mp h with h | h
  · rw [(Nat.prime_dvd_prime_iff_eq hq (by norm_num)).mp h]
    exact pratt_pow_ne_one 10177 7 ((10177 - 1) / 3) (by norm_num)
      (by decide) (by decide) (by decide)
  · rw [(Nat.prime_dvd_prime_iff_eq hq (by norm_num)).mp h]
    exact pratt_pow_ne_one 10177 7 ((10177 - 1) / 53) (by norm_num)
      (by decide) (by decide) (by decide)

theorem prime_125527 : Nat.Prime 125527 := by
  have hfact : (125527 : Nat) - 1 = 2 * (3 * (20921)) := by norm_num
  refine lucas_primality 125527 ((5 : Nat) : ZMod 125527)
    (pratt_pow_eq_one 125527 5 (by norm_num) (by decide) (by decide)) ?_
  intro q hq hdvd
  rw [hfact] at hdvd
  rcases (Nat.Prime.dvd_mul hq).mp hdvd with h | h
  · rw [(Nat.prime_dvd_prime_iff_eq hq (by norm_num)).mp h]
    exact pratt_pow_ne_one 125527 5 ((125527 - 1) / 2) (by norm_num)
      (by decide) (by decide) (by decide)
  rcases (Nat.Prime.dvd_mul hq).mp h with h | h
  · rw [(Nat.prime_dvd_prime_iff_eq hq (by norm_num)).mp h]
    exact pratt_pow_ne_one 125527 5 ((125527 - 1) / 3) (by norm_num)
      (by decide) (by decide) (by decide)
  · rw [(Nat.prime_dvd_prime_iff_eq hq prime_20921).mp h]
    exact pratt_pow_ne_one 125527 5 ((125527 - 1) / 20921) (by norm_num)
      (by decide) (by decide) (by decide)

theorem prime_859267 : Nat.Prime 859267 := by
  have hfact : (859267 : Nat) - 1 = 2 * (3 ^ 2 * (47737)) := by norm_num
  refine lucas_primality 859267 ((2 : Nat) : ZMod 859267)
    (pratt_pow_eq_one 859267 2 (by norm_num) (by decide) (by decide)) ?_
  intro q hq hdvd
  rw [hfact] at hdvd
  rcases (Nat.Prime.dvd_mul hq).mp hdvd with h | h
  · rw [(Nat.prime_dvd_prime_iff_eq hq (by norm_num)).mp h]
    exact pratt_pow_ne_one 859267 2 ((859267 - 1) / 2) (by norm_num)
      (by decide) (by decide) (by decide)
  rcases (Nat.Prime.dvd_mul hq).mp h with h | h
  · have hq2 := Nat.Prime.dvd_of_dvd_pow hq h
    rw [(Nat.prime_dvd_prime_iff_eq hq (by norm_num)).mp hq2]
    exact pratt_pow_ne_one 859267 2 ((859267 - 1) / 3) (by norm_num)
      (by decide) (by decide) (by decide)
  · rw [(Nat.prime_dvd_prime_iff_eq hq prime_47737).mp h]
    exact pratt_pow_ne_one 859267 2 ((859267 - 1) / 47737) (by norm_num)
      (by decide) (by decide) (by decide)

theorem prime_906349 : Nat.Prime 906349 := by
  have hfact : (906349 : Nat) - 1 = 2 ^ 2 * (3 * (47 * (1607))) := by norm_num
  refine lucas_primality 906349 ((2 : Nat) : ZMod 906349)
    (pratt_pow_eq_one 906349 2 (by norm_num) (by decide) (by decide)) ?_
  intro q hq hdvd
  rw [hfact] at hdvd
  rcases (Nat.Prime.dvd_mul hq).mp hdvd with h | h
  · have hq2 := Nat.Prime.dvd_of_dvd_pow hq h
    rw [(Nat.prime_dvd_prime_iff_eq hq (by norm_num)).mp hq2]
    exact pratt_pow_ne_one 906349 2 ((906349 - 1) / 2) (by norm_num)
      (by decide) (by decide) (by decide)
  rcases (Nat.Prime.dvd_mul hq).mp h with h | h
  · rw [(Nat.prime_dvd_prime_iff_eq hq (by norm_num)).mp h]
    exact pratt_pow_ne_one 906349 2 ((906349 - 1) / 3) (by norm_num)
      (by decide) (by decide) (by decide)
  rcases (Nat.Prime.dvd_mul hq).mp h with h | h
  · rw [(Nat.prime_dvd_prime_iff_eq hq (by norm_num)).mp h]
    exact pratt_pow_ne_one 906349 2 ((906349 - 1) / 47) (by norm_num)
      (by decide) (by decide) (by decide)
  · rw [(Nat.prime_dvd_prime_iff_eq hq prime_1607).mp h]
    exact pratt_pow_ne_one 906349 2 ((906349 - 1) / 1607) (by norm_num)
      (by decide) (by decide) (by decide)

theorem prime_2508409 : Nat.Prime 2508409 := by
  have hfact : (2508409 : Nat) - 1 = 2 ^ 3 * (3 ^ 4 * (7 ^ 2 * (79))) := by norm_num
  refine lucas_primality 2508409 ((11 : Nat) : ZMod 2508409)
    (pratt_pow_eq_one 2508409 11 (by norm_num) (by decide) (by decide)) ?_
  intro q hq hdvd
  rw [hfact] at hdvd
  rcases (Nat.Prime.dvd_mul hq).mp hdvd with h | h
  · have hq2 := Nat.Prime.dvd_of_dvd_pow hq h
    rw [(Nat.prime_dvd_prime_iff_eq hq (by norm_num)).mp hq2]
    exact pratt_pow_ne_one 2508409 11 ((2508409 - 1) / 2) (by norm_num)
      (by decide) (by decide) (by decide)
  rcases (Nat.Prime.dvd_mul hq).mp h with h | h
  · have hq2 := Nat.Prime.dvd_of_dvd_pow hq h
    rw [(Nat.prime_dvd_prime_iff_eq hq (by norm_num)).mp hq2]
    exact pratt_pow_ne_one 2508409 11 ((2508409 - 1) / 3) (by norm_num)
      (by decide) (by decide) (by decide)
  rcases (Nat.Prime.dvd_mul hq).mp h with h | h
  · have hq2 := Nat.Prime.dvd_of_dvd_pow hq h
    rw [(Nat.prime_dvd_prime_iff_eq hq (by norm_num)).mp hq2]
    exact pratt_pow_ne_one 2508409 11 ((2508409 - 1) / 7) (by norm_num)
      (by decide) (by decide) (by decide)
  · rw [(Nat.prime_dvd_prime_iff_eq hq (by norm_num)).mp h]
    exact pratt_pow_ne_one 2508409 11 ((2508409 - 1) / 79) (by norm_num)
      (by decide) (by decide) (by decide)

theorem prime_2529403 : Nat.Prime 2529403 := by
  have hfact : (2529403 : Nat) - 1 = 2 * (3 * (23 * (18329))) := by norm_num
  refine lucas_primality 2529403 ((2 : Nat) : ZMod 2529403)
    (pratt_pow_eq_one 2529403 2 (by norm_num) (by decide) (by decide)) ?_
  intro q hq hdvd
  rw [hfact] at hdvd
  rcases (Nat.Prime.dvd_mul hq).mp hdvd with h | h
  · rw [(Nat.prime_dvd_prime_iff_eq hq (by norm_num)).mp h]
    exact pratt_pow_ne_one 2529403 2 ((2529403 - 1) / 2) (by norm_num)
      (by decide) (by decide) (by decide)
  rcases (Nat.Prime.dvd_mul hq).mp h with h | h
  · rw [(Nat.prime_dvd_prime_iff_eq hq (by norm_num)).mp h]
    exact pratt_pow_ne_one 2529403 2 ((2529403 - 1) / 3) (by norm_num)
      (by decide) (by decide) (by decide)
  rcases (Nat.Prime.dvd_mul hq).mp h with h | h
  · rw [(Nat.prime_dvd_prime_iff_eq hq (by norm_num)).mp h]
    exact pratt_pow_ne_one 2529403 2 ((2529403 - 1) / 23) (by norm_num)
      (by decide) (by decide) (by decide)
  · rw [(Nat.prime_dvd_prime_iff_eq hq prime_18329).mp h]
    exact pratt_pow_ne_one 2529403 2 ((2529403 - 1) / 18329) (by norm_num)
      (by decide) (by decide) (by decide)

theorem prime_52437899 : Nat.Prime 52437899 := by
  have hfact : (52437899 : Nat) - 1 = 2 * (43 * (609743)) := by norm_num
  refine lucas_primality 52437899 ((2 : Nat) : ZMod 52437899)
    (pratt_pow_eq_one 52437899 2 (by norm_num) (by decide) (by decide)) ?_
  intro q hq hdvd
  rw [hfact] at hdvd
  rcases (Nat.Prime.dvd_mul hq).mp hdvd with h | h
  · rw [(Nat.prime_dvd_prime_iff_eq hq (by norm_num)).mp h]
    exact pratt_pow_ne_one 52437899 2 ((52437899 - 1) / 2) (by norm_num)
      (by decide) (by decide) (by decide)
  rcases (Nat.Prime.dvd_mul hq).mp h with h | h
  · rw [(Nat.prime_dvd_prime_iff_eq hq (by norm_num)).mp h]
    exact pratt_pow_ne_one 52437899 2 ((52437899 - 1) / 43) (by norm_num)
      (by decide) (by decide) (by decide)
  · rw [(Nat.prime_dvd_prime_iff_eq hq prime_609743).mp h]
    exact pratt_pow_ne_one 52437899 2 ((52437899 - 1) / 609743) (by norm_num)
      (by decide) (by decide) (by decide)

theorem prime_254760293 : Nat.Prime 254760293 := by
  have hfact : (254760293 : Nat) - 1 = 2 ^ 2 * (63690073) := by norm_num
  refine lucas_primality 254760293 ((2 : Nat) : ZMod 254760293)
    (pratt_pow_eq_one 254760293 2 (by norm_num) (by decide) (by decide)) ?_
  intro q hq hdvd
  rw [hfact] at hdvd
  rcases (Nat.Prime.dvd_mul hq).mp hdvd with h | h
  · have hq2 := Nat.Prime.dvd_of_dvd_pow hq h
    rw [(Nat.prime_dvd_prime_iff_eq hq (by norm_num)).mp hq2]
    exact pratt_pow_ne_one 254760293 2 ((254760293 - 1) / 2) (by norm_num)
      (by decide) (by decide) (by decide)
  · rw [(Nat.prime_dvd_prime_iff_eq hq prime_63690073).mp h]
    exact pratt_pow_ne_one 254760293 2 ((254760293 - 1) / 63690073) (by norm_num)
      (by decide) (by decide) (by decide)

theorem pratt_check_of_powModFuel (e : Nat) (hle : e ≤ rBLS - 1)
    (hne : powModFuel 256 7 e rBLS ≠ 1) (hlt : powModFuel 256 7 e rBLS < rBLS) :
    ((7 : Nat) : ZMod rBLS) ^ e ≠ 1 := by
  have he : e < 2 ^ 256 := lt_of_le_of_lt hle (by decide)
  rw [zmod_pow_eq 7 e he]
  exact natCast_ne_one_of _ hne hlt

set_option maxRecDepth 100000 in
theorem rBLS_prime : Nat.Prime rBLS := by
  have hfact : rBLS - 1 = 2 ^ 32 * (3 * (11 * (19 * (10177 * (125527 * (859267 *
      (906349 ^ 2 * (2508409 * (2529403 * (52437899 * 254760293 ^ 2)))))))))) := by decide
  have hq2 : ((7 : Nat) : ZMod rBLS) ^ ((rBLS - 1) / 2) ≠ 1 :=
    pratt_check_of_powModFuel _ (Nat.div_le_self _ _) (by decide) (by decide)
  have hq3 : ((7 : Nat) : ZMod rBLS) ^ ((rBLS - 1) / 3) ≠ 1 :=
    pratt_check_of_powModFuel _ (Nat.div_le_self _ _) (by decide) (by decide)
  have hq11 : ((7 : Nat) : ZMod rBLS) ^ ((rBLS - 1) / 11) ≠ 1 :=
    pratt_check_of_powModFuel _ (Nat.div_le_self _ _) (by decide) (by decide)
  have hq19 : ((7 : Nat) : ZMod rBLS) ^ ((rBLS - 1) / 19) ≠ 1 :=
    pratt_check_of_powModFuel _ (Nat.div_le_self _ _) (by decide) (by decide)
  have hq10177 : ((7 : Nat) : ZMod rBLS) ^ ((rBLS - 1) / 10177) ≠ 1 :=
    pratt_check_of_powModFuel _ (Nat.div_le_self _ _) (by decide) (by decide)
  have hq125527 : ((7 : Nat) : ZMod rBLS) ^ ((rBLS - 1) / 125527) ≠ 1 :=
    pratt_check_of_powModFuel _ (Nat.div_le_self _ _) (by decide) (by decide)
  have hq859267 : ((7 : Nat) : ZMod rBLS) ^ ((rBLS - 1) / 859267) ≠ 1 :=
    pratt_check_of_powModFuel _ (Nat.div_le_self _ _) (by decide) (by decide)
  have hq906349 : ((7 : Nat) : ZMod rBLS) ^ ((rBLS - 1) / 906349) ≠ 1 :=
    pratt_check_of_powModFuel _ (Nat.div_le_self _ _) (by decide) (by decide)
  have hq2508409 : ((7 : Nat) : ZMod rBLS) ^ ((rBLS - 1) / 2508409) ≠ 1 :=
    pratt_check_of_powModFuel _ (Nat.div_le_self _ _) (by decide) (by decide)
  have hq2529403 : ((7 : Nat) : ZMod rBLS) ^ ((rBLS - 1) / 2529403) ≠ 1 :=
    pratt_check_of_powModFuel _ (Nat.div_le_self _ _) (by decide) (by decide)
  have hq52437899 : ((7 : Nat) : ZMod rBLS) ^ ((rBLS - 1) / 52437899) ≠ 1 :=
    pratt_check_of_powModFuel _ (Nat.div_le_self _ _) (by decide) (by decide)
  have hq254760293 : ((7 : Nat) : ZMod rBLS) ^ ((rBLS - 1) / 254760293) ≠ 1 :=
    pratt_check_of_powModFuel _ (Nat.div_le_self _ _) (by decide) (by decide)
  refine lucas_primality rBLS ((7 : Nat) : ZMod rBLS) ?_ ?_
  · rw [zmod_pow_eq 7 (rBLS - 1) (by decide)]
    have h1 : powModFuel 256 7 (rBLS - 1) rBLS = 1 := by decide
    rw [h1, Nat.cast_one]
  · intro q hq hdvd
    rw [hfact] at hdvd
    have eq_of_dvd_pow : ∀ p k : Nat, Nat.Prime p → q ∣ p ^ k → q = p := by
      intro p k hp hdq
      exact (Nat.prime_dvd_prime_iff_eq hq hp).mp (Nat.Prime.dvd_of_dvd_pow hq hdq)
    have eq_of_dvd : ∀ p : Nat, Nat.Prime p → q ∣ p → q = p := by
      intro p hp hdq
      exact (Nat.prime_dvd_prime_iff_eq hq hp).mp hdq
    rcases (Nat.Prime.dvd_mul hq).mp hdvd with h | h
    · rw [eq_of_dvd_pow 2 32 (by norm_num) h]; exact hq2
    rcases (Nat.Prime.dvd_mul hq).mp h with h | h
    · rw [eq_of_dvd 3 (by norm_num) h]; exact hq3
    rcases (Nat.Prime.dvd_mul hq).mp h with h | h
    · rw [eq_of_dvd 11 (by norm_num) h]; exact hq11
    rcases (Nat.Prime.dvd_mul hq).mp h with h | h
    · rw [eq_of_dvd 19 (by norm_num) h]; exact hq19
    rcases (Nat.Prime.dvd_mul hq).mp h with h | h
    · rw [eq_of_dvd 10177 prime_10177 h]; exact hq10177
    rcases (Nat.Prime.dvd_mul hq).mp h with h | h
    · rw [eq_of_dvd 125527 prime_125527 h]; exact hq125527
    rcases (Nat.Prime.dvd_mul hq).mp h with h | h
    · rw [eq_of_dvd 859267 prime_859267 h]; exact hq859267
    rcases (Nat.Prime.dvd_mul hq).mp h with h | h
    · rw [eq_of_dvd_pow 906349 2 prime_906349 h]; exact hq906349
    rcases (Nat.Prime.dvd_mul hq).mp h with h | h
    · rw [eq_of_dvd 2508409 prime_2508409 h]; exact hq2508409
    rcases (Nat.Prime.dvd_mul hq).mp h with h | h
    · rw [eq_of_dvd 2529403 prime_2529403 h]; exact hq2529403
    rcases (Nat.Prime.dvd_mul hq).mp h with h | h
    · rw [eq_of_dvd 52437899 prime_52437899 h]; exact hq52437899
    · rw [eq_of_dvd_pow 254760293 2 prime_254760293 h]; exact hq254760293

instance instFactPrimeRBLS : Fact (Nat.Prime rBLS) := ⟨rBLS_prime⟩

/-- The scalar field F_r of BLS12-381, the model of bls12_381::Scalar. -/
abbrev F : Type := ZMod rBLS

/-- Error type of the library (src/enums.rs). -/
inductive KzgError where
  | BadArgs : String → KzgError
  | InternalError : KzgError
  | InvalidBytesLength : String → KzgError
  | InvalidHexFormat : String → KzgError
  | InvalidTrustedSetup : String → KzgError
deriving DecidableEq, Repr

/-- Little-endian value of a byte list, first byte least significant. -/
def leVal : List Nat → Nat
  | [] => 0
  | b :: rest => b + 256 * leVal rest

/-- Big-endian value of a byte list, as read by u64::from_be_bytes and by the scalar
boundary parsing, which reverses the bytes into little-endian order first. -/
def beVal (bytes : List Nat) : Nat := leVal bytes.reverse

/-- Little-endian serialization of a natural number into k bytes. -/
def natToLeBytes : Nat → Nat → List Nat
  | 0, _ => []
  | k + 1, v => v % 256 :: natToLeBytes k (v / 256)

/-- Scalar::to_bytes of the external field library: the canonical value of the scalar,
serialized as 32 little-endian bytes. -/
def scalarToBytes (x : F) : List Nat := natToLeBytes 32 x.val

/-- Big-endian 32-byte boundary encoding of a scalar; section 6 of the spec fixes the
external encoding of z and y as big-endian. -/
def scalarToBeBytes (x : F) : List Nat := (natToLeBytes 32 x.val).reverse

/-- Big-endian 8-byte encoding of a u64, the to_be_bytes output. -/
def be8 (n : Nat) : List Nat := (natToLeBytes 8 n).reverse

/-- Modelled from the spec: constant of section 6; the consts module of the crate root
is not under src. -/
def NUM_FIELD_ELEMENTS_PER_BLOB : Nat := 4096

/-- Modelled from the spec: constant of section 6. -/
def BYTES_PER_FIELD_ELEMENT : Nat := 32

/-- Modelled from the spec: constant of section 6. -/
def BYTES_PER_BLOB : Nat := 131072

/-- Modelled from the spec: constant of section 6. -/
def BYTES_PER_COMMITMENT : Nat := 48

/-- Modelled from the spec: constant of section 6. -/
def BYTES_PER_PROOF : Nat := 48

/-- Modelled from the spec: constant of section 6. -/
def CHALLENGE_INPUT_SIZE : Nat := 131152

/-- Modelled from the spec: length of the two domain separators of section 4.2. -/
def DOMAIN_STR_LENGTH : Nat := 16

/-- Modelled from the spec: ASCII bytes of the single-blob domain separator of
section 4.2. -/
def FIAT_SHAMIR_PROTOCOL_DOMAIN : List Nat :=
  [70, 83, 66, 76, 79, 66, 86, 69, 82, 73, 70, 89, 95, 86, 49, 95]

/-- Modelled from the spec: ASCII bytes of the batch domain separator of section 4.2. -/
def RANDOM_CHALLENGE_KZG_BATCH_DOMAIN : List Nat :=
  [82, 67, 75, 90, 71, 66, 65, 84, 67, 72, 95, 95, 95, 86, 49, 95]

/-- Abstract model of the external bls12_381 curve machinery: the groups G1 and G2, the
compressed codec beyond the concrete compression-flag test, group arithmetic, the final
pairing comparison, and the external SHA-256 function.  The library under verification
only composes these operations, so its control flow and its field-level algorithms are
verified for every instantiation of this structure. -/
structure CurveModel where
  G1 : Type
  G2 : Type
  fromCompressedRest : List Nat → Option G1
  toCompressed : G1 → List Nat
  g1Add : G1 → G1 → G1
  g1Sub : G1 → G1 → G1
  g1Double : G1 → G1
  g1Id : G1
  g1Gen : G1
  g1SMul : F → G1 → G1
  g1IsIdentity : G1 → Bool
  g1IsOnCurve : G1 → Bool
  g2Sub : G2 → G2 → G2
  g2Gen : G2
  g2SMul : F → G2 → G2
  millerCheck : G1 → G2 → G1 → G2 → Bool
  sha256 : List Nat → List Nat

/-- KzgSettings (src/trusted_setup.rs): the verifier state.  The slices have the fixed
lengths NUM_ROOTS_OF_UNITY = NUM_G1_POINTS = 4096 and NUM_G2_POINTS = 65 given by
section 3 of the spec, modelled as total functions on Fin. -/
structure KzgSettings (M : CurveModel) where
  roots_of_unity : Fin 4096 → F
  g1_points : Fin 4096 → M.G1
  g2_points : Fin 65 → M.G2

/-- pairings_verify (src/pairings.rs): the multi Miller loop of (-a1, a2) and (b1, b2)
followed by final exponentiation and comparison with the identity of Gt; the loop is
external and abstract. -/
def pairings_verify (M : CurveModel) (a1 : M.G1) (a2 : M.G2) (b1 : M.G1) (b2 : M.G2) :
    Bool :=
  M.millerCheck a1 a2 b1 b2

/-- G1Affine::from_compressed of the external library: None whenever the compression
flag, bit 7 of byte 0, is clear; every further decompression step (coordinate below the
base-field modulus, square root, infinity-flag consistency, subgroup membership) is the
abstract fromCompressedRest. -/
def g1_from_compressed (M : CurveModel) (bytes : List Nat) : Option M.G1 :=
  if Nat.testBit (bytes.headD 0) 7 then M.fromCompressedRest bytes else none

/-- safe_g1_affine_from_bytes (src/kzg_proof.rs lines 17 to 25). -/
def safe_g1_affine_from_bytes (M : CurveModel) (bytes : List Nat) : Except KzgError M.G1 :=
  match g1_from_compressed M bytes with
  | none => .error (.BadArgs "Failed to parse G1Affine from bytes")
  | some g1 => .ok g1

/-- safe_scalar_affine_from_bytes (src/kzg_proof.rs lines 27 to 43): reverse the 32
big-endian boundary bytes into little-endian order and parse them with the canonical
Scalar::from_bytes of the external library, which fails when the value is not below
the modulus. -/
def safe_scalar_affine_from_bytes (bytes : List Nat) : Except KzgError F :=
  if leVal bytes.reverse < rBLS then .ok ((leVal bytes.reverse : Nat) : F)
  else .error (.BadArgs "Failed to parse G1Affine from bytes")

/-- scalar_from_u64_array_unchecked (src/kzg_proof.rs lines 83 to 91).  The source
computes the borrows of a trial subtraction of MODULUS with sbb and discards all four
subtraction results, then calls Scalar::from_raw on the original limbs reversed into
little-endian limb order; from_raw fully reduces its input modulo r, so the function
denotes the 256-bit limb value as an element of F_r. -/
def scalar_from_u64_array_unchecked (array : Fin 4 → Nat) : F :=
  ((array 3 + array 2 * 2 ^ 64 + array 1 * 2 ^ 128 + array 0 * 2 ^ 192 : Nat) : F)

/-- scalar_from_bytes_unchecked (src/kzg_proof.rs lines 74 to 81): the four u64 limbs
are read big-endian from the four 8-byte chunks of the 32-byte digest. -/
def scalar_from_bytes_unchecked (bytes : List Nat) : F :=
  scalar_from_u64_array_unchecked fun i => beVal ((bytes.drop (8 * i.val)).take 8)

/-- Modelled from the spec: the Fiat-Shamir reduction of section 4.2 read literally,
interpreting the digest as a 256-bit big-endian integer and performing one subtraction
of the modulus with borrow: keep the raw value when it is below the modulus, otherwise
subtract the modulus once.  This is the comparand of the refinement claim about
scalar_from_bytes_unchecked. -/
def specSingleSubtractionReduce (v : Nat) : Nat :=
  if v < rBLS then v else v - rBLS

/-- compute_challenge (src/kzg_proof.rs lines 46 to 72).  The offset-indexed buffer
copies of the source tile the CHALLENGE_INPUT_SIZE buffer exactly, with slot widths 16,
8, 8, BYTES_PER_BLOB and BYTES_PER_COMMITMENT equal to the lengths of the items written,
so the buffer is their concatenation; the final offset check of the source compares the
sum of the slot widths with CHALLENGE_INPUT_SIZE. -/
def compute_challenge (M : CurveModel) (blob : List Nat) (commitment : M.G1) :
    Except KzgError F :=
  let bytes := FIAT_SHAMIR_PROTOCOL_DOMAIN ++ be8 0 ++ be8 NUM_FIELD_ELEMENTS_PER_BLOB ++
    blob ++ M.toCompressed commitment
  let offset := DOMAIN_STR_LENGTH + 8 + 8 + BYTES_PER_BLOB + BYTES_PER_COMMITMENT
  if offset ≠ CHALLENGE_INPUT_SIZE then
    .error (.InvalidBytesLength "The challenge buffer has the wrong length")
  else
    .ok (scalar_from_bytes_unchecked (M.sha256 bytes))

/-- Bytes32::from_slice (src/dtypes.rs, define_bytes_type at size 32). -/
def Bytes32.from_slice (slice : List Nat) : Except KzgError (List Nat) :=
  if slice.length ≠ 32 then .error (.InvalidBytesLength "Invalid slice length")
  else .ok slice

/-- The chunks(BYTES_PER_FIELD_ELEMENT) iterator of Blob::as_polynomial: split a byte
list into consecutive chunks of 32 bytes, the last one possibly shorter. -/
def chunks32 : List Nat → List (List Nat)
  | [] => []
  | a :: l => ((a :: l).take 32) :: chunks32 ((a :: l).drop 32)
termination_by l => l.length
decreasing_by
  simp only [List.length_drop, List.length_cons]
  omega

/-- Blob::as_polynomial (src/dtypes.rs lines 48 to 57): split the blob into 32-byte
chunks and parse each chunk with Bytes32::from_slice followed by
safe_scalar_affine_from_bytes, stopping at the first error. -/
def blob_as_polynomial (blob : List Nat) : Except KzgError (List F) :=
  (chunks32 blob).mapM fun slice =>
    match Bytes32.from_slice slice with
    | .error e => .error e
    | .ok bytes => safe_scalar_affine_from_bytes bytes

/-- Forward pass of batch_inversion: out[i] receives the running product of
a[0], ..., a[i-1]; the accumulator starts at one. -/
def fwdGo : List F → F → List F
  | [], _ => []
  | x :: rest, acc => acc :: fwdGo rest (acc * x)

/-- Backward pass of batch_inversion over the zipped (out, a) pairs taken from the last
index down, so the input here is the reversed zip: each out[i] is multiplied by the
accumulator, which is then multiplied by a[i]. -/
def backGo : List (F × F) → F → List F
  | [], _ => []
  | p :: rest, acc => p.1 * acc :: backGo rest (acc * p.2)

/-- batch_inversion (src/kzg_proof.rs lines 155 to 197).  The first guard of the source
compares a == out, which for Rust slices is elementwise content equality, so out0, the
contents of the destination buffer at entry, takes part in the result.  Indexing beyond
either slice, when len exceeds a length, is a panic, modelled as none.  The single
inversion unwrap cannot panic because the accumulator was checked nonzero. -/
def batch_inversion (out0 a : List F) (len : Nat) : Option (Except KzgError (List F)) :=
  if a = out0 then some (.error (.BadArgs "Destination is the same as source"))
  else if len ≤ a.length ∧ len ≤ out0.length then
    let pre := a.take len
    let fwd := fwdGo pre 1
    let accumulator := pre.prod
    if accumulator = 0 then some (.error (.BadArgs "Zero input"))
    else
      some (.ok ((backGo ((fwd.zip pre).reverse) accumulator⁻¹).reverse ++ out0.drop len))
  else none

/-- evaluate_polynomial_in_evaluation_form (src/kzg_proof.rs lines 94 to 133).  The
loop over the 4096 roots both short-circuits on the first root equal to x and builds
the inputs x - root[i] of the batch inversion; the destination buffer handed to
batch_inversion is freshly zero-initialized.  The final unwrap of the inverse of 4096
cannot panic since 4096 is nonzero in F_r. -/
def evaluate_polynomial_in_evaluation_form (M : CurveModel) (polynomial : List F) (x : F)
    (kzg_settings : KzgSettings M) : Option (Except KzgError F) :=
  if polynomial.length ≠ NUM_FIELD_ELEMENTS_PER_BLOB then
    some (.error (.InvalidBytesLength "The polynomial length is incorrect"))
  else
    match (List.finRange 4096).find?
        (fun i => decide (x = kzg_settings.roots_of_unity i)) with
    | some i => some (.ok (polynomial.getD i.val 0))
    | none =>
      match batch_inversion (List.replicate 4096 0)
          ((List.finRange 4096).map fun i => x - kzg_settings.roots_of_unity i) 4096 with
      | none => none
      | some (.error e) => some (.error e)
      | some (.ok inverses) =>
        some (.ok ((((List.finRange 4096).map fun i =>
          inverses.getD i.val 0 * kzg_settings.roots_of_unity i *
            polynomial.getD i.val 0).sum) *
          ((NUM_FIELD_ELEMENTS_PER_BLOB : Nat) : F)⁻¹ *
          (x ^ NUM_FIELD_ELEMENTS_PER_BLOB - 1)))

/-- Loop of expand_root_of_unity after the initial pair 1, root: push current * root up
to n more times, stopping early as soon as the value just pushed is one. -/
def expandGo (root : F) : F → Nat → List F
  | _, 0 => []
  | cur, n + 1 =>
    if cur * root = 1 then [cur * root] else (cur * root) :: expandGo root (cur * root) n

/-- expand_root_of_unity (src/trusted_setup.rs lines 250 to 274). -/
def expand_root_of_unity (root : F) (width : Nat) : Except KzgError (List F) :=
  if width < 2 then
    .error (.BadArgs "The width must be greater or equal to 2")
  else
    if (1 :: root :: expandGo root root (width - 1)).getLast? ≠ some 1 then
      .error (.InvalidBytesLength "The last element value should be equal to 1")
    else
      .ok (1 :: root :: expandGo root root (width - 1))

/-- log2 (src/msm.rs lines 8 to 15): zero when x is at most 1, otherwise the bit length
of x, which for x below 2^64 agrees with 64 - leading_zeros. -/
def log2 (x : Nat) : Nat := if x ≤ 1 then 0 else Nat.size x

/-- ln_without_floats (src/msm.rs lines 4 to 6). -/
def ln_without_floats (a : Nat) : Nat := log2 a * 69 / 100

/-- divn (src/msm.rs lines 19 to 25).  The doc comment of the source says divide by n
and its callers use it as a right shift by n bits, but the implementation multiplies by
the field inverse of n itself: Scalar::from(n).invert().unwrap(), which panics when
n = 0 because invert of zero is None (modelled as none). -/
def divn (x : F) (n : Nat) : Option F :=
  if 256 ≤ n then some 0
  else if (n : F) = 0 then none
  else some ((n : F)⁻¹ * x)

/-- One scalar-and-point update of a Pippenger window, the for_each body of
msm_variable_base (src/msm.rs lines 51 to 87).  The scalar is first Montgomery-reduced
to a struct holding its plain integer value s.val in the limbs; passing that struct
through the Scalar multiplication inside divn leaves the limbs holding the resulting
field value as a plain integer, so the c-bit slice is val of the divn result mod 2^c.
The state is the running result together with the 2^c - 1 buckets. -/
def msmWindowStep (M : CurveModel) (w c : Nat) (st : M.G1 × List M.G1) (sp : F × M.G1) :
    Option (M.G1 × List M.G1) :=
  let s := sp.1
  let base := sp.2
  if s = 0 then some st
  else if s = 1 then
    some (if w = 0 then (M.g1Add st.1 base, st.2) else st)
  else
    match divn ((s.val : Nat) : F) w with
    | none => none
    | some shifted =>
      let slice := shifted.val % 2 ^ c
      if slice = 0 then some st
      else some (st.1, st.2.set (slice - 1) (M.g1Add (st.2.getD (slice - 1) M.g1Id) base))

/-- One window of msm_variable_base: fold the scalar-point pairs through msmWindowStep
starting from an identity result and 2^c - 1 identity buckets, then collapse the
buckets right to left with a running sum. -/
def msmWindow (M : CurveModel) (pairs : List (F × M.G1)) (w c : Nat) : Option M.G1 := do
  let st ← pairs.foldlM (msmWindowStep M w c) (M.g1Id, List.replicate (2 ^ c - 1) M.g1Id)
  let collapsed := st.2.reverse.foldl
    (fun (p : M.G1 × M.G1) b =>
      let rs := M.g1Add p.2 b
      (M.g1Add p.1 rs, rs))
    (st.1, M.g1Id)
  pure collapsed.1

/-- Window start offsets 0, c, 2c, ... below num_bits = 255, the step_by(c) iterator of
msm_variable_base. -/
def windowStarts (c : Nat) : List Nat :=
  (List.range 255).filter fun w => decide (w % c = 0)

/-- Repeated doubling, c times between adjacent windows. -/
def doubleTimes (M : CurveModel) : Nat → M.G1 → M.G1
  | 0, g => g
  | n + 1, g => doubleTimes M n (M.g1Double g)

/-- msm_variable_base (src/msm.rs lines 28 to 113).  A divn panic inside any window
propagates; the unwrap of the first window sum panics only on an empty window list. -/
def msm_variable_base (M : CurveModel) (points : List M.G1) (scalars : List F) :
    Option M.G1 := do
  let c := if scalars.length < 32 then 3 else ln_without_floats scalars.length + 2
  let pairs := scalars.zip points
  let window_sums ← (windowStarts c).mapM fun w => msmWindow M pairs w c
  match window_sums with
  | [] => none
  | lowest :: rest =>
    pure (M.g1Add
      (rest.reverse.foldl (fun total sum_i => doubleTimes M c (M.g1Add total sum_i))
        M.g1Id)
      lowest)

/-- compute_powers (src/kzg_proof.rs lines 272 to 282): powers[0] is one and each later
entry multiplies the previous one by base, so powers[i] = base ^ i. -/
def compute_powers (base : F) (num_powers : Nat) : List F :=
  (List.range num_powers).map fun i => base ^ i

/-- Transcript bytes of compute_r_powers (src/kzg_proof.rs lines 294 to 327): the batch
domain separator, 8-byte big-endian NUM_FIELD_ELEMENTS_PER_BLOB and n, then for every
index the compressed commitment, z and y through Scalar::to_bytes, and the compressed
proof.  The offset-indexed buffer writes of the source tile the buffer exactly with slot
widths 48, 32, 32 and 48 equal to the lengths of the items written; transcript_chunk is
the per-index slot group. -/
def transcript_chunk (M : CurveModel) (commitment : List M.G1) (zs ys : List F)
    (proofs : List M.G1) (i : Nat) : List Nat :=
  M.toCompressed (commitment.getD i M.g1Id) ++ scalarToBytes (zs.getD i 0) ++
    scalarToBytes (ys.getD i 0) ++ M.toCompressed (proofs.getD i M.g1Id)

def r_powers_transcript (M : CurveModel) (commitment : List M.G1) (zs ys : List F)
    (proofs : List M.G1) : List Nat :=
  RANDOM_CHALLENGE_KZG_BATCH_DOMAIN ++ be8 NUM_FIELD_ELEMENTS_PER_BLOB ++
    be8 commitment.length ++
    (List.range commitment.length).flatMap (transcript_chunk M commitment zs ys proofs)

/-- compute_r_powers (src/kzg_proof.rs lines 284 to 341).  The write loop indexes zs,
ys and proofs at every i below n = commitment.len(), a panic when one of them is
shorter (none); the final offset check always passes because the slot widths tile the
buffer. -/
def compute_r_powers (M : CurveModel) (commitment : List M.G1) (zs ys : List F)
    (proofs : List M.G1) : Option (Except KzgError (List F)) :=
  let n := commitment.length
  if n ≤ zs.length ∧ n ≤ ys.length ∧ n ≤ proofs.length then
    let evaluation := M.sha256 (r_powers_transcript M commitment zs ys proofs)
    let r := scalar_from_bytes_unchecked evaluation
    some (.ok (compute_powers r n))
  else none

/-- verify_kzg_proof_impl (src/kzg_proof.rs lines 199 to 219). -/
def verify_kzg_proof_impl (M : CurveModel) (commitment : M.G1) (z y : F) (proof : M.G1)
    (kzg_settings : KzgSettings M) : Except KzgError Bool :=
  let x := M.g2SMul z M.g2Gen
  let x_minus_z := M.g2Sub (kzg_settings.g2_points 1) x
  let y1 := M.g1SMul y M.g1Gen
  let p_minus_y := M.g1Sub commitment y1
  .ok (pairings_verify M p_minus_y M.g2Gen proof x_minus_z)

/-- validate_batched_input (src/kzg_proof.rs lines 221 to 242). -/
def validate_batched_input (M : CurveModel) (commitment proofs : List M.G1) :
    Except KzgError Unit :=
  let invalid_commitment := commitment.any fun c => !M.g1IsIdentity c && !M.g1IsOnCurve c
  let invalid_proof := proofs.any fun p => !M.g1IsIdentity p && !M.g1IsOnCurve p
  if invalid_commitment then .error (.BadArgs "Invalid commitment")
  else if invalid_proof then .error (.BadArgs "Invalid proof")
  else .ok ()

/-- Loop body of compute_challenges_and_evaluate_polynomial (src/kzg_proof.rs lines 244
to 270) over the zipped blobs and commitments, collecting the (challenge, y) pairs. -/
def cceGo (M : CurveModel) (kzg_settings : KzgSettings M) :
    List (List Nat × M.G1) → Option (Except KzgError (List (F × F)))
  | [] => some (.ok [])
  | (blob, commitment) :: rest =>
    match blob_as_polynomial blob with
    | .error e => some (.error e)
    | .ok polynomial =>
    match compute_challenge M blob commitment with
    | .error e => some (.error e)
    | .ok evaluation_challenge =>
    match evaluate_polynomial_in_evaluation_form M polynomial evaluation_challenge
        kzg_settings with
    | none => none
    | some (.error e) => some (.error e)
    | some (.ok y) =>
    match cceGo M kzg_settings rest with
    | none => none
    | some (.error e) => some (.error e)
    | some (.ok tail) => some (.ok ((evaluation_challenge, y) :: tail))

/-- compute_challenges_and_evaluate_polynomial (src/kzg_proof.rs lines 244 to 270): the
loop indexes commitment[i] for every i below blobs.len(), a panic when the commitments
are fewer; otherwise it folds over the zipped lists. -/
def compute_challenges_and_evaluate_polynomial (M : CurveModel) (blobs : List (List Nat))
    (commitment : List M.G1) (kzg_settings : KzgSettings M) :
    Option (Except KzgError (List F × List F)) :=
  if blobs.length ≤ commitment.length then
    match cceGo M kzg_settings (blobs.zip commitment) with
    | none => none
    | some (.error e) => some (.error e)
    | some (.ok pairs) => some (.ok (pairs.map Prod.fst, pairs.map Prod.snd))
  else none

/-- KzgProof::verify_kzg_proof (src/kzg_proof.rs lines 346 to 390): parse z, y,
commitment and proof in this order, propagating the parse error, then evaluate the
single pairing identity. -/
def KzgProof.verify_kzg_proof (M : CurveModel)
    (commitment_bytes z_bytes y_bytes proof_bytes : List Nat)
    (kzg_settings : KzgSettings M) : Except KzgError Bool :=
  match safe_scalar_affine_from_bytes z_bytes with
  | .error e => .error e
  | .ok z =>
  match safe_scalar_affine_from_bytes y_bytes with
  | .error e => .error e
  | .ok y =>
  match safe_g1_affine_from_bytes M commitment_bytes with
  | .error e => .error e
  | .ok commitment =>
  match safe_g1_affine_from_bytes M proof_bytes with
  | .error e => .error e
  | .ok proof =>
    let g2_x := M.g2SMul z M.g2Gen
    let x_minus_z := M.g2Sub (kzg_settings.g2_points 1) g2_x
    let g1_y := M.g1SMul y M.g1Gen
    let p_minus_y := M.g1Sub commitment g1_y
    .ok (pairings_verify M p_minus_y M.g2Gen proof x_minus_z)

/-- KzgProof::verify_kzg_proof_batch (src/kzg_proof.rs lines 392 to 437). -/
def KzgProof.verify_kzg_proof_batch (M : CurveModel) (commitments : List M.G1)
    (zs ys : List F) (proofs : List M.G1) (kzg_settings : KzgSettings M) :
    Option (Except KzgError Bool) :=
  let n := commitments.length
  match compute_r_powers M commitments zs ys proofs with
  | none => none
  | some (.error e) => some (.error e)
  | some (.ok r_powers) =>
  match msm_variable_base M proofs r_powers with
  | none => none
  | some proof_lincomb =>
  if n ≤ ys.length ∧ n ≤ zs.length then
    let c_minus_y := (List.range n).map fun i =>
      M.g1Sub (commitments.getD i M.g1Id) (M.g1SMul (ys.getD i 0) M.g1Gen)
    let r_times_z := (List.range n).map fun i => r_powers.getD i 0 * zs.getD i 0
    match msm_variable_base M proofs r_times_z with
    | none => none
    | some proof_z_lincomb =>
    match msm_variable_base M c_minus_y r_powers with
    | none => none
    | some c_minus_y_lincomb =>
      let rhs_g1 := M.g1Add c_minus_y_lincomb proof_z_lincomb
      some (.ok (pairings_verify M proof_lincomb (kzg_settings.g2_points 1) rhs_g1
        M.g2Gen))
  else none

/-- KzgProof::verify_blob_kzg_proof (src/kzg_proof.rs lines 439 to 463). -/
def KzgProof.verify_blob_kzg_proof (M : CurveModel) (blob : List Nat)
    (commitment_bytes proof_bytes : List Nat) (kzg_settings : KzgSettings M) :
    Option (Except KzgError Bool) :=
  match safe_g1_affine_from_bytes M commitment_bytes with
  | .error e => some (.error e)
  | .ok commitment =>
  match blob_as_polynomial blob with
  | .error e => some (.error e)
  | .ok polynomial =>
  match safe_g1_affine_from_bytes M proof_bytes with
  | .error e => some (.error e)
  | .ok proof =>
  match compute_challenge M blob commitment with
  | .error e => some (.error e)
  | .ok evaluation_challenge =>
  match evaluate_polynomial_in_evaluation_form M polynomial evaluation_challenge
      kzg_settings with
  | none => none
  | some (.error e) => some (.error e)
  | some (.ok y) =>
    some (verify_kzg_proof_impl M commitment evaluation_challenge y proof kzg_settings)

/-- KzgProof::verify_blob_kzg_proof_batch (src/kzg_proof.rs lines 465 to 518): the
empty and single-element fast paths run before the two length checks; the
single-element path indexes commitments_bytes[0] and proofs_bytes[0], a panic when
either vector is empty (none). -/
def KzgProof.verify_blob_kzg_proof_batch (M : CurveModel) (blobs : List (List Nat))
    (commitments_bytes proofs_bytes : List (List Nat)) (kzg_settings : KzgSettings M) :
    Option (Except KzgError Bool) :=
  if blobs.length = 0 then some (.ok true)
  else if blobs.length = 1 then
    match blobs.head?, commitments_bytes.head?, proofs_bytes.head? with
    | some blob, some cb, some pb => KzgProof.verify_blob_kzg_proof M blob cb pb
        kzg_settings
    | _, _, _ => none
  else if blobs.length ≠ commitments_bytes.length then
    some (.error (.InvalidBytesLength "Invalid commitments length"))
  else if blobs.length ≠ proofs_bytes.length then
    some (.error (.InvalidBytesLength "Invalid proofs length"))
  else
    match commitments_bytes.mapM (fun b => safe_g1_affine_from_bytes M b) with
    | .error e => some (.error e)
    | .ok commitments =>
    match proofs_bytes.mapM (fun b => safe_g1_affine_from_bytes M b) with
    | .error e => some (.error e)
    | .ok proofs =>
    match validate_batched_input M commitments proofs with
    | .error e => some (.error e)
    | .ok _ =>
    match compute_challenges_and_evaluate_polynomial M blobs commitments kzg_settings with
    | none => none
    | some (.error e) => some (.error e)
    | some (.ok (evaluation_challenges, ys)) =>
      KzgProof.verify_kzg_proof_batch M commitments evaluation_challenges ys proofs
        kzg_settings

/-- verify_kzg_proof of the legacy crate root (src/lib.rs lines 41 to 80): same parse
order and same pairing identity as KzgProof::verify_kzg_proof (the legacy file compares
pairing(p_minus_y, G2) with pairing(proof, x_minus_z) directly, the same comparison
the Miller-loop form decides, and reads the tau point from index 1 of the G2 slice),
but it returns a plain boolean and maps every parse failure to false. -/
def lib_verify_kzg_proof (M : CurveModel)
    (commitment_bytes z_bytes y_bytes proof_bytes : List Nat)
    (kzg_settings : KzgSettings M) : Bool :=
  match safe_scalar_affine_from_bytes z_bytes with
  | .error _ => false
  | .ok z =>
  match safe_scalar_affine_from_bytes y_bytes with
  | .error _ => false
  | .ok y =>
  match safe_g1_affine_from_bytes M commitment_bytes with
  | .error _ => false
  | .ok commitment =>
  match safe_g1_affine_from_bytes M proof_bytes with
  | .error _ => false
  | .ok proof =>
    let g2_x := M.g2SMul z M.g2Gen
    let x_minus_z := M.g2Sub (kzg_settings.g2_points 1) g2_x
    let g1_y := M.g1SMul y M.g1Gen
    let p_minus_y := M.g1Sub commitment g1_y
    pairings_verify M p_minus_y M.g2Gen proof x_minus_z

theorem leVal_append (l1 l2 : List Nat) :
    leVal (l1 ++ l2) = leVal l1 + 256 ^ l1.length * leVal l2 := by
  induction l1 with
  | nil => simp [leVal]
  | cons b t ih =>
    have hc : (b :: t) ++ l2 = b :: (t ++ l2) := rfl
    rw [hc]
    simp only [leVal, List.length_cons, pow_succ, ih]
    ring

theorem beVal_append (l1 l2 : List Nat) :
    beVal (l1 ++ l2) = beVal l2 + 256 ^ l2.length * beVal l1 := by
  unfold beVal
  rw [List.reverse_append, leVal_append, List.length_reverse]

theorem cast_specSingleSubtractionReduce (v : Nat) :
    ((specSingleSubtractionReduce v : Nat) : F) = ((v : Nat) : F) := by
  unfold specSingleSubtractionReduce
  split
  · rfl
  · rename_i h
    push_neg at h
    rw [Nat.cast_sub h, ZMod.natCast_self, sub_zero]

theorem beVal_split32 (bytes : List Nat) (hlen : bytes.length = 32) :
    beVal bytes =
      beVal ((bytes.drop 24).take 8) + beVal ((bytes.drop 16).take 8) * 2 ^ 64 +
        beVal ((bytes.drop 8).take 8) * 2 ^ 128 + beVal ((bytes.drop 0).take 8) * 2 ^ 192 := by
  have h0 : bytes = bytes.take 8 ++ bytes.drop 8 := (List.take_append_drop 8 bytes).symm
  have h1 : bytes.drop 8 = (bytes.drop 8).take 8 ++ bytes.drop 16 := by
    have hd : (bytes.drop 8).drop 8 = bytes.drop 16 := by
      rw [List.drop_drop]
    rw [← hd]
    exact (List.take_append_drop 8 (bytes.drop 8)).symm
  have h2 : bytes.drop 16 = (bytes.drop 16).take 8 ++ bytes.drop 24 := by
    have hd : (bytes.drop 16).drop 8 = bytes.drop 24 := by
      rw [List.drop_drop]
    rw [← hd]
    exact (List.take_append_drop 8 (bytes.drop 16)).symm
  have h3 : bytes.drop 24 = (bytes.drop 24).take 8 := by
    rw [List.take_of_length_le]
    simp [hlen]
  have len8 : (bytes.drop 8).length = 24 := by simp [hlen]
  have len16 : (bytes.drop 16).length = 16 := by simp [hlen]
  have len24 : (bytes.drop 24).length = 8 := by simp [hlen]
  calc beVal bytes
      = beVal (bytes.take 8 ++ bytes.drop 8) := by rw [← h0]
    _ = beVal (bytes.drop 8) + 256 ^ 24 * beVal (bytes.take 8) := by
        rw [beVal_append, len8]
    _ = beVal ((bytes.drop 8).take 8 ++ bytes.drop 16) + 256 ^ 24 * beVal (bytes.take 8) := by
        rw [← h1]
    _ = beVal (bytes.drop 16) + 256 ^ 16 * beVal ((bytes.drop 8).take 8) +
          256 ^ 24 * beVal (bytes.take 8) := by rw [beVal_append, len16]
    _ = beVal ((bytes.drop 16).take 8 ++ bytes.drop 24) + 256 ^ 16 * beVal ((bytes.drop 8).take 8) +
          256 ^ 24 * beVal (bytes.take 8) := by rw [← h2]
    _ = beVal (bytes.drop 24) + 256 ^ 8 * beVal ((bytes.drop 16).take 8) +
          256 ^ 16 * beVal ((bytes.drop 8).take 8) + 256 ^ 24 * beVal (bytes.take 8) := by
        rw [beVal_append, len24]
    _ = beVal ((bytes.drop 24).take 8) + beVal ((bytes.drop 16).take 8) * 2 ^ 64 +
          beVal ((bytes.drop 8).take 8) * 2 ^ 128 + beVal ((bytes.drop 0).take 8) * 2 ^ 192 := by
        have p8 : (256 : Nat) ^ 8 = 2 ^ 64 := by norm_num
        have p16 : (256 : Nat) ^ 16 = 2 ^ 128 := by norm_num
        have p24 : (256 : Nat) ^ 24 = 2 ^ 192 := by norm_num
        rw [← h3, List.drop_zero, p8, p16, p24]
        ring

/-- C3: for every 32-byte digest, the unchecked Fiat-Shamir reduction of the source
(scalar_from_bytes_unchecked, big-endian u64 limbs handed to from_raw with the sbb
subtraction results discarded) returns exactly the scalar denoted by the reduction the
spec describes: the big-endian 256-bit digest value after one subtraction of the
modulus with borrow.  In F_r the two agree on every digest, including those whose limb
value is at least twice the modulus, where the single-subtraction representative is
still not canonical but denotes the same field element. -/
theorem C3_scalar_from_bytes_unchecked_matches_spec_reduction (bytes : List Nat)
    (hlen : bytes.length = 32) :
    scalar_from_bytes_unchecked bytes =
      ((specSingleSubtractionReduce (beVal bytes) : Nat) : F) := by
  have hval : scalar_from_bytes_unchecked bytes =
      ((beVal ((bytes.drop 24).take 8) + beVal ((bytes.drop 16).take 8) * 2 ^ 64 +
        beVal ((bytes.drop 8).take 8) * 2 ^ 128 +
        beVal ((bytes.drop 0).take 8) * 2 ^ 192 : Nat) : F) := rfl
  rw [hval, cast_specSingleSubtractionReduce, beVal_split32 bytes hlen]

/-- Witness for C3 at the all-255 digest, whose 256-bit value exceeds twice the
modulus. -/
theorem C3_witness :
    scalar_from_bytes_unchecked (List.replicate 32 255) =
      ((specSingleSubtractionReduce (beVal (List.replicate 32 255)) : Nat) : F) :=
  C3_scalar_from_bytes_unchecked_matches_spec_reduction (List.replicate 32 255) (by simp)

theorem fwdGo_length (l : List F) : ∀ acc : F, (fwdGo l acc).length = l.length := by
  induction l with
  | nil => intro acc; rfl
  | cons x rest ih => intro acc; simp [fwdGo, ih]

theorem backGo_length (l : List (F × F)) : ∀ acc : F, (backGo l acc).length = l.length := by
  induction l with
  | nil => intro acc; rfl
  | cons p rest ih => intro acc; simp [backGo, ih]

theorem fwdGo_getD (l : List F) : ∀ (acc : F) (i : Nat), i < l.length →
    (fwdGo l acc).getD i 0 = acc * (l.take i).prod := by
  induction l with
  | nil => intro acc i h; simp at h
  | cons x rest ih =>
    intro acc i h
    cases i with
    | zero => simp [fwdGo]
    | succ j =>
      have hj : j < rest.length := by
        simpa using h
      show (acc :: fwdGo rest (acc * x)).getD (j + 1) 0 = _
      rw [List.getD_cons_succ, ih (acc * x) j hj, List.take_succ_cons, List.prod_cons,
        mul_assoc]

theorem backGo_rev_getD (l : List (F × F)) : ∀ (acc : F) (i : Nat), i < l.length →
    (backGo l.reverse acc).reverse.getD i 0 =
      (l.getD i (0, 0)).1 * (acc * ((l.drop (i + 1)).map Prod.snd).prod) := by
  induction l using List.reverseRecOn with
  | nil => intro acc i h; simp at h
  | append_singleton t x ih =>
    intro acc i h
    have hrev : (t ++ [x]).reverse = x :: t.reverse := by simp
    rw [hrev]
    show ((x.1 * acc :: backGo t.reverse (acc * x.2)).reverse).getD i 0 = _
    rw [List.reverse_cons]
    rcases Nat.lt_or_ge i t.length with hi | hi
    · have hlen : ((backGo t.reverse (acc * x.2)).reverse).length = t.length := by
        simp [backGo_length]
      rw [List.getD_append _ _ _ _ (by rw [hlen]; exact hi), ih (acc * x.2) i hi,
        List.getD_append _ _ _ _ hi,
        List.drop_append_of_le_length (by omega), List.map_append, List.prod_append]
      have hx : (([x].map Prod.snd).prod : F) = x.2 := by simp
      rw [hx]
      ring
    · have hieq : i = t.length := by
        have hlt : i < t.length + 1 := by simpa using h
        omega
      subst hieq
      have hlen : ((backGo t.reverse (acc * x.2)).reverse).length = t.length := by
        simp [backGo_length]
      rw [List.getD_append_right _ _ _ _ (by rw [hlen]),
        List.getD_append_right _ _ _ _ (le_refl _)]
      have hdrop : (t ++ [x]).drop (t.length + 1) = [] :=
        List.drop_eq_nil_of_le (by simp)
      rw [hdrop, hlen]
      simp

theorem batch_inversion_ok_getD (out0 a : List F) (len : Nat) (hne : a ≠ out0)
    (hlen1 : len ≤ a.length) (hlen2 : len ≤ out0.length)
    (hprod : (a.take len).prod ≠ 0) (i : Nat) (hi : i < len) :
    ∃ res, batch_inversion out0 a len = some (.ok res) ∧
      res.getD i 0 = (a.take len).prod⁻¹ * ((a.take len).take i).prod *
        ((a.take len).drop (i + 1)).prod := by
  have hguard : (len ≤ a.length ∧ len ≤ out0.length) := ⟨hlen1, hlen2⟩
  refine ⟨(backGo ((fwdGo (a.take len) 1).zip (a.take len)).reverse
    ((a.take len).prod)⁻¹).reverse ++ out0.drop len, ?_, ?_⟩
  · unfold batch_inversion
    simp only [if_neg hne, if_pos hguard, if_neg hprod]
  · set pre := a.take len with hpre
    have hprelen : pre.length = len := by
      rw [hpre, List.length_take]
      omega
    have hziplen : ((fwdGo pre 1).zip pre).length = len := by
      rw [List.length_zip, fwdGo_length, hprelen, min_self]
    have hrevlen : ((backGo ((fwdGo pre 1).zip pre).reverse pre.prod⁻¹).reverse).length
        = len := by
      rw [List.length_reverse, backGo_length, List.length_reverse, hziplen]
    rw [List.getD_append _ _ _ _ (by rw [hrevlen]; exact hi)]
    rw [backGo_rev_getD ((fwdGo pre 1).zip pre) pre.prod⁻¹ i (by rw [hziplen]; exact hi)]
    have hzip_getD : (((fwdGo pre 1).zip pre).getD i (0, 0)) =
        ((fwdGo pre 1).getD i 0, pre.getD i 0) := by
      rw [List.getD_eq_getElem _ _ (by rw [hziplen]; exact hi),
        List.getD_eq_getElem _ _ (by rw [fwdGo_length, hprelen]; exact hi),
        List.getD_eq_getElem _ _ (by rw [hprelen]; exact hi)]
      exact List.getElem_zip
    rw [hzip_getD]
    have hzip_drop : ((fwdGo pre 1).zip pre).drop (i + 1) =
        ((fwdGo pre 1).drop (i + 1)).zip (pre.drop (i + 1)) := by
      simp [List.zip, List.drop_zipWith]
    rw [hzip_drop]
    have hmap_snd : ((((fwdGo pre 1).drop (i + 1)).zip (pre.drop (i + 1))).map
        Prod.snd).prod = (pre.drop (i + 1)).prod := by
      have hlens : ((fwdGo pre 1).drop (i + 1)).length = (pre.drop (i + 1)).length := by
        simp [fwdGo_length]
      rw [List.map_snd_zip _ _ (le_of_eq hlens.symm)]
    rw [hmap_snd, fwdGo_getD pre 1 i (by rw [hprelen]; exact hi), one_mul]
    ring

theorem prod_split_at (a : List F) (i : Nat) (hi : i < a.length) :
    a.prod = (a.take i).prod * (a.getD i 0 * (a.drop (i + 1)).prod) := by
  conv_lhs => rw [← List.take_append_drop i a]
  rw [List.prod_append, List.drop_eq_getElem_cons hi, List.prod_cons,
    List.getD_eq_getElem a 0 hi]

/-- C6 (amended): for every input a of length n at least 1 and a non-aliasing
destination of the same length whose initial contents differ from a (the source guards
with a content-equality check on the two slices), batch_inversion returns Ok with
out[i] * a[i] = 1 at every index when all a[i] are nonzero, and a BadArgs error when
some a[i] is zero. -/
theorem C6_batch_inversion_inverts (out0 a : List F) (len : Nat)
    (hlen0 : 1 ≤ len) (hlen1 : len = a.length) (hlen2 : out0.length = a.length)
    (hne : a ≠ out0) :
    ((∀ x ∈ a, x ≠ 0) →
      ∃ res, batch_inversion out0 a len = some (.ok res) ∧
        ∀ i < len, res.getD i 0 * a.getD i 0 = 1) ∧
    ((∃ x ∈ a, x = 0) →
      ∃ msg, batch_inversion out0 a len = some (.error (.BadArgs msg))) := by
  have htake : a.take len = a := by
    rw [hlen1]
    exact List.take_length a
  constructor
  · intro hnz
    have hprod : (a.take len).prod ≠ 0 := by
      rw [htake]
      exact List.prod_ne_zero fun h0 => hnz 0 h0 rfl
    obtain ⟨res, hrun, _⟩ := batch_inversion_ok_getD out0 a len hne (le_of_eq hlen1)
      (le_of_eq (hlen1.trans hlen2.symm)) hprod 0 hlen0
    refine ⟨res, hrun, ?_⟩
    intro i hi
    obtain ⟨res2, hrun2, hval⟩ := batch_inversion_ok_getD out0 a len hne (le_of_eq hlen1)
      (le_of_eq (hlen1.trans hlen2.symm)) hprod i hi
    have hres : res2 = res := by
      rw [hrun] at hrun2
      injection hrun2 with h
      injection h with h2
      exact h2.symm
    rw [← hres, hval, htake]
    have hia : i < a.length := by omega
    have hsplit := prod_split_at a i hia
    have hpneq : a.prod ≠ 0 := by
      rw [← htake]
      exact hprod
    calc a.prod⁻¹ * (a.take i).prod * (a.drop (i + 1)).prod * a.getD i 0
        = a.prod⁻¹ * ((a.take i).prod * (a.getD i 0 * (a.drop (i + 1)).prod)) := by ring
      _ = a.prod⁻¹ * a.prod := by rw [← hsplit]
      _ = 1 := inv_mul_cancel₀ hpneq
  · intro hz
    obtain ⟨x, hmem, hx0⟩ := hz
    have hprod : (a.take len).prod = 0 := by
      rw [htake]
      exact List.prod_eq_zero (hx0 ▸ hmem)
    refine ⟨"Zero input", ?_⟩
    have hguard : len ≤ a.length ∧ len ≤ out0.length :=
      ⟨le_of_eq hlen1, le_of_eq (hlen1.trans hlen2.symm)⟩
    unfold batch_inversion
    rw [if_neg hne, if_pos hguard]
    simp only [if_pos hprod]

deriving instance DecidableEq for Except

set_option maxRecDepth 10000 in
/-- Counterexample for C6 as stated: the source slice [1] and a non-aliasing
destination whose current contents are also [1] make the content-equality guard of
batch_inversion fire, so an all-nonzero input of length 1 is rejected with BadArgs
instead of being inverted. -/
theorem C6_counterexample :
    batch_inversion [(1 : F)] [(1 : F)] 1 =
      some (.error (.BadArgs "Destination is the same as source")) := by
  decide

set_option maxRecDepth 10000 in
/-- Witness for C6 at a = [2] against a zeroed destination. -/
theorem C6_witness :
    ∃ res, batch_inversion [(0 : F)] [(2 : F)] 1 = some (.ok res) ∧
      ∀ i < 1, res.getD i 0 * [(2 : F)].getD i 0 = 1 :=
  (C6_batch_inversion_inverts [(0 : F)] [(2 : F)] 1 (le_refl 1) rfl rfl
    (by decide)).1 (by
      intro x hx
      rw [List.mem_singleton] at hx
      subst hx
      decide)

/-- Trivial instantiation of the abstract curve machinery, used to evaluate the control
flow of the verifiers at concrete inputs. -/
abbrev unitModel : CurveModel where
  G1 := Unit
  G2 := Unit
  fromCompressedRest := fun _ => some ()
  toCompressed := fun _ => List.replicate 48 0
  g1Add := fun _ _ => ()
  g1Sub := fun _ _ => ()
  g1Double := fun _ => ()
  g1Id := ()
  g1Gen := ()
  g1SMul := fun _ _ => ()
  g1IsIdentity := fun _ => true
  g1IsOnCurve := fun _ => true
  g2Sub := fun _ _ => ()
  g2Gen := ()
  g2SMul := fun _ _ => ()
  millerCheck := fun _ _ _ _ => true
  sha256 := fun _ => List.replicate 32 0

/-- Settings over the trivial curve model whose roots of unity are pairwise distinct. -/
def unitSettings : KzgSettings unitModel where
  roots_of_unity := fun i => ((i.val : Nat) : F)
  g1_points := fun _ => ()
  g2_points := fun _ => ()

theorem unitSettings_roots_injective : Function.Injective unitSettings.roots_of_unity := by
  intro i j h
  have hbound : (4096 : Nat) < rBLS := by decide
  have hi : ((i.val : Nat) : F).val = i.val :=
    ZMod.val_cast_of_lt (lt_trans i.isLt hbound)
  have hj : ((j.val : Nat) : F).val = j.val :=
    ZMod.val_cast_of_lt (lt_trans j.isLt hbound)
  apply Fin.ext
  have hv := congrArg ZMod.val h
  simp only [unitSettings] at hv
  rwa [hi, hj] at hv

theorem find?_unique {α : Type} (p : α → Bool) (l : List α) (a : α)
    (hmem : a ∈ l) (hpa : p a = true) (huniq : ∀ x ∈ l, p x = true → x = a) :
    l.find? p = some a := by
  induction l with
  | nil => simp at hmem
  | cons x t ih =>
    by_cases hx : p x = true
    · have hxa : x = a := huniq x (List.mem_cons_self x t) hx
      subst hxa
      rw [List.find?_cons_of_pos _ hx]
    · rw [List.find?_cons_of_neg _ (by simpa using hx)]
      have hat : a ∈ t := by
        rcases List.mem_cons.mp hmem with h | h
        · exfalso
          rw [h] at hpa
          exact hx hpa
        · exact h
      exact ih hat fun y hy hpy => huniq y (List.mem_cons_of_mem x hy) hpy

set_option maxRecDepth 10000 in
/-- C5: for every 4096-element polynomial, every settings value with pairwise distinct
roots of unity (an invariant of every valid KzgSettings) and every index i, evaluating
at roots_of_unity[i] takes the short-circuit path of the root scan and returns
Ok(p[i]) without any division. -/
theorem C5_evaluate_at_root_returns_entry (M : CurveModel) (p : List F)
    (s : KzgSettings M) (i : Fin 4096) (hlen : p.length = 4096)
    (hinj : Function.Injective s.roots_of_unity) :
    evaluate_polynomial_in_evaluation_form M p (s.roots_of_unity i) s =
      some (.ok (p.getD i.val 0)) := by
  unfold evaluate_polynomial_in_evaluation_form
  have hc : ¬(p.length ≠ NUM_FIELD_ELEMENTS_PER_BLOB) := by
    rw [hlen]
    exact fun h => h rfl
  rw [if_neg hc]
  have hfind : (List.finRange 4096).find?
      (fun j => decide (s.roots_of_unity i = s.roots_of_unity j)) = some i := by
    apply find?_unique
    · exact List.mem_finRange i
    · exact decide_eq_true rfl
    · intro j _ hpj
      have hroots : s.roots_of_unity i = s.roots_of_unity j := of_decide_eq_true hpj
      exact (hinj hroots).symm
  rw [hfind]

/-- Witness for C5 at the zero polynomial and index 5 of the distinct-root settings. -/
theorem C5_witness :
    evaluate_polynomial_in_evaluation_form unitModel (List.replicate 4096 0)
      (unitSettings.roots_of_unity 5) unitSettings =
      some (.ok ((List.replicate 4096 (0 : F)).getD (5 : Fin 4096).val 0)) :=
  C5_evaluate_at_root_returns_entry unitModel (List.replicate 4096 0) unitSettings 5
    (List.length_replicate 4096 0) unitSettings_roots_injective

/-- C10: whenever a 4096-element polynomial is evaluated, either the root scan
short-circuits, or every batch-inversion input x - roots_of_unity[i] is nonzero, the
accumulated product is nonzero in the field F_r, and the Zero input branch of
batch_inversion cannot be taken: the evaluation never fails with that error. -/
theorem C10_evaluate_never_zero_input_error (M : CurveModel) (p : List F) (x : F)
    (s : KzgSettings M) (hlen : p.length = 4096) :
    evaluate_polynomial_in_evaluation_form M p x s ≠
      some (.error (.BadArgs "Zero input")) := by
  unfold evaluate_polynomial_in_evaluation_form
  have hc : ¬(p.length ≠ NUM_FIELD_ELEMENTS_PER_BLOB) := by
    rw [hlen]
    exact fun h => h rfl
  rw [if_neg hc]
  cases hfind : (List.finRange 4096).find?
      (fun i => decide (x = s.roots_of_unity i)) with
  | some i =>
    exact fun h => Option.noConfusion h fun h2 => Except.noConfusion h2
  | none =>
    have hall : ∀ j : Fin 4096, x ≠ s.roots_of_unity j := by
      intro j hx
      exact (List.find?_eq_none.mp hfind j (List.mem_finRange j)) (decide_eq_true hx)
    have halen : ((List.finRange 4096).map fun i => x - s.roots_of_unity i).length
        = 4096 := by
      rw [List.length_map, List.length_finRange]
    have hnomem : (0 : F) ∉ (List.finRange 4096).map fun i => x - s.roots_of_unity i := by
      intro hmem
      obtain ⟨j, _, hj⟩ := List.mem_map.mp hmem
      exact sub_ne_zero_of_ne (hall j) hj
    have hane : ((List.finRange 4096).map fun i => x - s.roots_of_unity i) ≠
        List.replicate 4096 0 := by
      intro heq
      exact hnomem (heq ▸ List.mem_replicate.mpr ⟨by omega, rfl⟩)
    have hprod : (((List.finRange 4096).map fun i => x - s.roots_of_unity i).take
        4096).prod ≠ 0 := by
      rw [List.take_of_length_le (le_of_eq halen)]
      exact List.prod_ne_zero hnomem
    obtain ⟨res, hrun, _⟩ := batch_inversion_ok_getD (List.replicate 4096 0)
      ((List.finRange 4096).map fun i => x - s.roots_of_unity i) 4096 hane
      (le_of_eq halen.symm) (le_of_eq (List.length_replicate 4096 0).symm) hprod 0
      (by omega)
    rw [hrun]
    exact fun h => Option.noConfusion h fun h2 => Except.noConfusion h2

/-- Witness for C10 at the zero polynomial and x = 0 over the unit model. -/
theorem C10_witness :
    evaluate_polynomial_in_evaluation_form unitModel (List.replicate 4096 0) 0
      unitSettings ≠ some (.error (.BadArgs "Zero input")) :=
  C10_evaluate_never_zero_input_error unitModel (List.replicate 4096 0) 0 unitSettings
    (List.length_replicate 4096 0)

theorem expandGo_ne_nil (root cur : F) (n : Nat) (hn : 1 ≤ n) :
    expandGo root cur n ≠ [] := by
  cases n with
  | zero => omega
  | succ m =>
    show (if cur * root = 1 then [cur * root]
      else (cur * root) :: expandGo root (cur * root) m) ≠ []
    split <;> simp

theorem expandGo_getLast_eq_one_iff (root : F) (n : Nat) (hn : 1 ≤ n) : ∀ cur : F,
    ((expandGo root cur n).getLast? = some 1 ↔
      ∃ k, 1 ≤ k ∧ k ≤ n ∧ cur * root ^ k = 1) := by
  induction n with
  | zero => omega
  | succ m ih =>
    intro cur
    by_cases hm : m = 0
    · subst hm
      have he : expandGo root cur 1 = [cur * root] := by
        show (if cur * root = 1 then [cur * root]
          else (cur * root) :: expandGo root (cur * root) 0) = [cur * root]
        split <;> rfl
      rw [he]
      constructor
      · intro hlast
        refine ⟨1, le_refl 1, le_refl 1, ?_⟩
        rw [pow_one]
        simpa using hlast
      · rintro ⟨k, hk1, hkn, hk⟩
        have hk1' : k = 1 := by omega
        subst hk1'
        rw [pow_one] at hk
        simp [hk]
    · have hm1 : 1 ≤ m := by omega
      by_cases hc : cur * root = 1
      · have he : expandGo root cur (m + 1) = [cur * root] := by
          show (if cur * root = 1 then [cur * root]
            else (cur * root) :: expandGo root (cur * root) m) = [cur * root]
          rw [if_pos hc]
        rw [he]
        constructor
        · intro _
          refine ⟨1, le_refl 1, by omega, ?_⟩
          rwa [pow_one]
        · intro _
          simp [hc]
      · have he : expandGo root cur (m + 1) =
            (cur * root) :: expandGo root (cur * root) m := by
          show (if cur * root = 1 then [cur * root]
            else (cur * root) :: expandGo root (cur * root) m) =
            (cur * root) :: expandGo root (cur * root) m
          rw [if_neg hc]
        rw [he]
        cases hE : expandGo root (cur * root) m with
        | nil => exact absurd hE (expandGo_ne_nil root (cur * root) m hm1)
        | cons y ys =>
          rw [List.getLast?_cons_cons]
          have hiter := ih hm1 (cur * root)
          rw [hE] at hiter
          rw [hiter]
          constructor
          · rintro ⟨k, hk1, hkm, hk⟩
            refine ⟨k + 1, by omega, by omega, ?_⟩
            have hre : cur * root ^ (k + 1) = cur * root * root ^ k := by ring
            rw [hre]
            exact hk
          · rintro ⟨k, hk1, hkm1, hk⟩
            have hk2 : 2 ≤ k := by
              by_contra hlt
              have hk1' : k = 1 := by omega
              subst hk1'
              rw [pow_one] at hk
              exact hc hk
            refine ⟨k - 1, by omega, by omega, ?_⟩
            have hkeq : k - 1 + 1 = k := by omega
            have hre : cur * root * root ^ (k - 1) = cur * root ^ (k - 1 + 1) := by
              rw [pow_succ]
              ring
            rw [hre, hkeq]
            exact hk

/-- C7 (amended): for every width at least 2, expand_root_of_unity succeeds exactly
when some power root^k with 1 ≤ k ≤ width equals one, i.e. when the successive powers
close back to 1 at any length up to width + 1, not necessarily exactly at width + 1:
the loop of the source breaks as soon as the pushed value is one and the final check
only inspects the last element, so a root of small multiplicative order is accepted
and yields a table shorter than width + 1. -/
theorem C7_expand_root_of_unity_succeeds_iff (root : F) (width : Nat) (hw : 2 ≤ width) :
    (∃ l, expand_root_of_unity root width = .ok l) ↔
      ∃ k, 1 ≤ k ∧ k ≤ width ∧ root ^ k = 1 := by
  unfold expand_root_of_unity
  rw [if_neg (by omega : ¬width < 2)]
  have hn1 : 1 ≤ width - 1 := by omega
  have hiter := expandGo_getLast_eq_one_iff root (width - 1) hn1 root
  cases hE : expandGo root root (width - 1) with
  | nil => exact absurd hE (expandGo_ne_nil root root (width - 1) hn1)
  | cons y ys =>
    rw [hE] at hiter
    rw [List.getLast?_cons_cons, List.getLast?_cons_cons]
    by_cases hcond : (y :: ys).getLast? = some 1
    · rw [if_neg (fun hne => hne hcond)]
      constructor
      · intro _
        obtain ⟨k, hk1, hkm, hk⟩ := hiter.mp hcond
        refine ⟨k + 1, by omega, by omega, ?_⟩
        have hre : root ^ (k + 1) = root * root ^ k := by ring
        rw [hre]
        exact hk
      · intro _
        exact ⟨1 :: root :: y :: ys, rfl⟩
    · rw [if_pos hcond]
      constructor
      · rintro ⟨l, hl⟩
        exact Except.noConfusion hl
      · rintro ⟨k, hk1, hkw, hk⟩
        exfalso
        apply hcond
        apply hiter.mpr
        by_cases hk2 : 2 ≤ k
        · refine ⟨k - 1, by omega, by omega, ?_⟩
          have hkeq : k - 1 + 1 = k := by omega
          have hre : root * root ^ (k - 1) = root ^ (k - 1 + 1) := by
            rw [pow_succ]
            ring
          rw [hre, hkeq]
          exact hk
        · have hk1' : k = 1 := by omega
          subst hk1'
          rw [pow_one] at hk
          refine ⟨1, le_refl 1, by omega, ?_⟩
          rw [pow_one, hk, mul_one]

set_option maxRecDepth 10000 in
/-- Counterexample for C7 as stated: the constant root 1, whose power sequence first
closes back to 1 at length 2, is accepted by expand_root_of_unity at width 4096 and
yields the short table [1, 1, 1] instead of an error. -/
theorem C7_counterexample : expand_root_of_unity (1 : F) 4096 = .ok [1, 1, 1] := by
  decide

/-- Witness for C7 at root 1 and width 2. -/
theorem C7_witness :
    (∃ l, expand_root_of_unity (1 : F) 2 = .ok l) ↔
      ∃ k, 1 ≤ k ∧ k ≤ 2 ∧ (1 : F) ^ k = 1 :=
  C7_expand_root_of_unity_succeeds_iff 1 2 (le_refl 2)

theorem natToLeBytes_length (k : Nat) : ∀ v : Nat, (natToLeBytes k v).length = k := by
  induction k with
  | zero => intro v; rfl
  | succ m ih =>
    intro v
    show (v % 256 :: natToLeBytes m (v / 256)).length = m + 1
    rw [List.length_cons, ih]

theorem leVal_natToLeBytes (k : Nat) : ∀ v : Nat, v < 256 ^ k →
    leVal (natToLeBytes k v) = v := by
  induction k with
  | zero =>
    intro v hv
    have hv0 : v = 0 := by
      have : v < 1 := by simpa using hv
      omega
    subst hv0
    rfl
  | succ m ih =>
    intro v hv
    show leVal (v % 256 :: natToLeBytes m (v / 256)) = v
    have hdiv : v / 256 < 256 ^ m := by
      rw [Nat.div_lt_iff_lt_mul (by norm_num : 0 < 256)]
      calc v < 256 ^ (m + 1) := hv
        _ = 256 ^ m * 256 := by rw [pow_succ]
    show v % 256 + 256 * leVal (natToLeBytes m (v / 256)) = v
    rw [ih (v / 256) hdiv]
    omega

instance instNeZeroRBLS : NeZero rBLS := ⟨by decide⟩

theorem safe_scalar_roundtrip_beBytes (x : F) :
    safe_scalar_affine_from_bytes (scalarToBeBytes x) = .ok x := by
  unfold safe_scalar_affine_from_bytes scalarToBeBytes
  rw [List.reverse_reverse]
  have hval : leVal (natToLeBytes 32 x.val) = x.val :=
    leVal_natToLeBytes 32 x.val (lt_trans (ZMod.val_lt x) (by decide))
  rw [hval, if_pos (ZMod.val_lt x)]
  rw [ZMod.natCast_rightInverse x]

theorem flatMap_range'_drop (f : Nat → List Nat) (L : Nat) (hf : ∀ j, (f j).length = L)
    (i : Nat) : ∀ s k : Nat, i < k →
    ((List.range' s k).flatMap f).drop (L * i) =
      f (s + i) ++ (List.range' (s + i + 1) (k - i - 1)).flatMap f := by
  induction i with
  | zero =>
    intro s k hk
    cases k with
    | zero => omega
    | succ m =>
      rw [List.range'_succ s m 1]
      show ((f s ++ (List.range' (s + 1) m).flatMap f).drop (L * 0)) = _
      rw [Nat.mul_zero, List.drop_zero]
      have hs0 : s + 0 = s := rfl
      have hm : m + 1 - 0 - 1 = m := rfl
      rw [hs0, hm]
  | succ i ih =>
    intro s k hk
    cases k with
    | zero => omega
    | succ m =>
      rw [List.range'_succ s m 1]
      show ((f s ++ (List.range' (s + 1) m).flatMap f).drop (L * (i + 1))) = _
      have hmul : L * (i + 1) = L + L * i := by ring
      have hdd : (f s ++ (List.range' (s + 1) m).flatMap f).drop (L + L * i) =
          (((f s ++ (List.range' (s + 1) m).flatMap f).drop L).drop (L * i)) := by
        rw [List.drop_drop]
      have hdl : (f s ++ (List.range' (s + 1) m).flatMap f).drop L =
          (List.range' (s + 1) m).flatMap f := by
        rw [← hf s]
        exact List.drop_left _ _
      rw [hmul, hdd, hdl, ih (s + 1) m (by omega)]
      have h1 : s + 1 + i = s + (i + 1) := by omega
      have h3 : m - i - 1 = m + 1 - (i + 1) - 1 := by omega
      rw [h1, ← h3]

theorem be8_length (v : Nat) : (be8 v).length = 8 := by
  unfold be8
  rw [List.length_reverse, natToLeBytes_length]

theorem scalarToBytes_length (x : F) : (scalarToBytes x).length = 32 := by
  unfold scalarToBytes
  rw [natToLeBytes_length]

theorem transcript_chunk_length (M : CurveModel) (commitment : List M.G1)
    (zs ys : List F) (proofs : List M.G1)
    (hcomp : ∀ g : M.G1, (M.toCompressed g).length = 48) (i : Nat) :
    (transcript_chunk M commitment zs ys proofs i).length = 160 := by
  unfold transcript_chunk
  rw [List.length_append, List.length_append, List.length_append, hcomp, hcomp,
    scalarToBytes_length, scalarToBytes_length]

/-- C9: compute_r_powers writes each evaluation challenge z_i and each evaluation
value y_i into the hashed transcript through Scalar::to_bytes, 32 bytes in
little-endian order: the z slot at transcript offset 32 + 160 i + 48 and the y slot at
offset 32 + 160 i + 80 each hold the reverse of the big-endian boundary encoding of the
scalar, the encoding whose parse by safe_scalar_affine_from_bytes (which reverses the
bytes) recovers the scalar. -/
theorem C9_r_powers_transcript_little_endian (M : CurveModel)
    (commitment proofs : List M.G1) (zs ys : List F) (i : Nat)
    (hi : i < commitment.length)
    (hcomp : ∀ g : M.G1, (M.toCompressed g).length = 48) :
    (((r_powers_transcript M commitment zs ys proofs).drop (32 + (160 * i + 48))).take 32
        = (scalarToBeBytes (zs.getD i 0)).reverse ∧
      ((r_powers_transcript M commitment zs ys proofs).drop (32 + (160 * i + 80))).take 32
        = (scalarToBeBytes (ys.getD i 0)).reverse) ∧
      safe_scalar_affine_from_bytes (scalarToBeBytes (zs.getD i 0)) = .ok (zs.getD i 0) := by
  have hchunklen := transcript_chunk_length M commitment zs ys proofs hcomp
  have hdropHeader : ∀ k : Nat,
      (r_powers_transcript M commitment zs ys proofs).drop (32 + k) =
        ((List.range commitment.length).flatMap
          (transcript_chunk M commitment zs ys proofs)).drop k := by
    intro k
    unfold r_powers_transcript
    have hhead : ((RANDOM_CHALLENGE_KZG_BATCH_DOMAIN ++
        be8 NUM_FIELD_ELEMENTS_PER_BLOB) ++ be8 commitment.length).length = 32 := by
      rw [List.length_append, List.length_append, be8_length, be8_length]
      rfl
    rw [← hhead, List.drop_append]
  have hdropChunk :
      ((List.range commitment.length).flatMap
        (transcript_chunk M commitment zs ys proofs)).drop (160 * i) =
      transcript_chunk M commitment zs ys proofs i ++
        (List.range' (i + 1) (commitment.length - i - 1)).flatMap
          (transcript_chunk M commitment zs ys proofs) := by
    rw [List.range_eq_range' commitment.length]
    have hfm := flatMap_range'_drop (transcript_chunk M commitment zs ys proofs) 160
      hchunklen i 0 commitment.length hi
    simpa using hfm
  have hbeRev : ∀ x : F, (scalarToBeBytes x).reverse = scalarToBytes x := by
    intro x
    unfold scalarToBeBytes scalarToBytes
    rw [List.reverse_reverse]
  refine ⟨⟨?_, ?_⟩, safe_scalar_roundtrip_beBytes (zs.getD i 0)⟩
  · rw [hdropHeader (160 * i + 48), ← List.drop_drop, hdropChunk]
    unfold transcript_chunk
    simp only [List.append_assoc]
    rw [List.drop_left' (hcomp (commitment.getD i M.g1Id)),
      List.take_left' (scalarToBytes_length (zs.getD i 0)), hbeRev]
  · rw [hdropHeader (160 * i + 80)]
    have hk : 160 * i + 80 = 160 * i + 48 + 32 := by omega
    rw [hk, ← List.drop_drop, ← List.drop_drop, hdropChunk]
    unfold transcript_chunk
    simp only [List.append_assoc]
    rw [List.drop_left' (hcomp (commitment.getD i M.g1Id)),
      List.drop_left' (scalarToBytes_length (zs.getD i 0)),
      List.take_left' (scalarToBytes_length (ys.getD i 0)), hbeRev]

/-- Witness for C9 over the unit model with a single-element batch. -/
theorem C9_witness :
    (((r_powers_transcript unitModel [()] [0] [0] [()]).drop (32 + (160 * 0 + 48))).take 32
        = (scalarToBeBytes (([(0 : F)]).getD 0 0)).reverse ∧
      ((r_powers_transcript unitModel [()] [0] [0] [()]).drop (32 + (160 * 0 + 80))).take 32
        = (scalarToBeBytes (([(0 : F)]).getD 0 0)).reverse) ∧
      safe_scalar_affine_from_bytes (scalarToBeBytes (([(0 : F)]).getD 0 0)) =
        .ok (([(0 : F)]).getD 0 0) :=
  C9_r_powers_transcript_little_endian unitModel [()] [()] [0] [0] 0 (by decide)
    (fun g => rfl)

set_option maxRecDepth 10000 in
/-- C4: evaluation of the embedded msm_variable_base at the failing input of one point
with scalar 2.  The scalar is neither 0 nor 1, so the first window, window start 0,
Montgomery-reduces it and calls divn with n = 0; divn computes
Scalar::from(0).invert().unwrap(), which panics because invert of zero is None.  The
claimed c-bit slice of the integer representation 2 at offset 0 is (2 >>> 0) mod 2^3 =
2, bucket index 1, so no bucket index at all is computed where the claim requires
bucket 1. -/
theorem C4_msm_divn_panics_on_window_zero :
    msm_variable_base unitModel [()] [(2 : F)] = none ∧ (2 >>> 0) % 2 ^ 3 = 2 := by
  constructor
  · decide
  · decide

theorem safe_scalar_error_of_noncanonical (bytes : List Nat)
    (h : ¬ leVal bytes.reverse < rBLS) :
    safe_scalar_affine_from_bytes bytes =
      .error (.BadArgs "Failed to parse G1Affine from bytes") := by
  unfold safe_scalar_affine_from_bytes
  rw [if_neg h]

theorem safe_scalar_ok_of_canonical (bytes : List Nat) (h : leVal bytes.reverse < rBLS) :
    safe_scalar_affine_from_bytes bytes = .ok ((leVal bytes.reverse : Nat) : F) := by
  unfold safe_scalar_affine_from_bytes
  rw [if_pos h]

theorem safe_g1_error_of_none (M : CurveModel) (bytes : List Nat)
    (h : g1_from_compressed M bytes = none) :
    safe_g1_affine_from_bytes M bytes =
      .error (.BadArgs "Failed to parse G1Affine from bytes") := by
  unfold safe_g1_affine_from_bytes
  rw [h]

theorem safe_g1_ok_of_some (M : CurveModel) (bytes : List Nat) (g : M.G1)
    (h : g1_from_compressed M bytes = some g) :
    safe_g1_affine_from_bytes M bytes = .ok g := by
  unfold safe_g1_affine_from_bytes
  rw [h]

/-- C1 (amended): for the Result-returning KzgProof::verify_kzg_proof of
src/kzg_proof.rs, every input whose z or y bytes are not a canonical scalar or whose
commitment or proof bytes fail G1 decompression yields a BadArgs error, never the
boolean Ok(false).  The claim as stated also covers the legacy bool-returning
verify_kzg_proof of src/lib.rs, which instead reports every parse failure as the
boolean false; see the counterexample. -/
theorem C1_verify_kzg_proof_badargs (M : CurveModel)
    (commitment_bytes z_bytes y_bytes proof_bytes : List Nat) (s : KzgSettings M)
    (hbad : ¬ leVal z_bytes.reverse < rBLS ∨ ¬ leVal y_bytes.reverse < rBLS ∨
      g1_from_compressed M commitment_bytes = none ∨
      g1_from_compressed M proof_bytes = none) :
    ∃ msg, KzgProof.verify_kzg_proof M commitment_bytes z_bytes y_bytes proof_bytes s =
      .error (.BadArgs msg) := by
  unfold KzgProof.verify_kzg_proof
  by_cases hz : leVal z_bytes.reverse < rBLS
  case neg =>
    rw [safe_scalar_error_of_noncanonical z_bytes hz]
    exact ⟨"Failed to parse G1Affine from bytes", rfl⟩
  case pos =>
    rw [safe_scalar_ok_of_canonical z_bytes hz]
    by_cases hy : leVal y_bytes.reverse < rBLS
    case neg =>
      rw [safe_scalar_error_of_noncanonical y_bytes hy]
      exact ⟨"Failed to parse G1Affine from bytes", rfl⟩
    case pos =>
      rw [safe_scalar_ok_of_canonical y_bytes hy]
      cases hcm : g1_from_compressed M commitment_bytes with
      | none =>
        rw [safe_g1_error_of_none M commitment_bytes hcm]
        exact ⟨"Failed to parse G1Affine from bytes", rfl⟩
      | some gc =>
        rw [safe_g1_ok_of_some M commitment_bytes gc hcm]
        cases hpf : g1_from_compressed M proof_bytes with
        | none =>
          rw [safe_g1_error_of_none M proof_bytes hpf]
          exact ⟨"Failed to parse G1Affine from bytes", rfl⟩
        | some gp =>
          exfalso
          rcases hbad with h | h | h | h
          · exact h hz
          · exact h hy
          · rw [hcm] at h
            exact Option.noConfusion h
          · rw [hpf] at h
            exact Option.noConfusion h

/-- Witness for C1 over the unit model: 48 zero bytes have the compression flag clear,
so the commitment fails decompression while z and y parse as zero. -/
theorem C1_witness :
    ∃ msg, KzgProof.verify_kzg_proof unitModel (List.replicate 48 0)
      (List.replicate 32 0) (List.replicate 32 0) (List.replicate 48 0) unitSettings =
      .error (.BadArgs msg) :=
  C1_verify_kzg_proof_badargs unitModel (List.replicate 48 0) (List.replicate 32 0)
    (List.replicate 32 0) (List.replicate 48 0) unitSettings
    (Or.inr (Or.inr (Or.inl (by decide))))

set_option maxRecDepth 10000 in
/-- Counterexample for C1 as stated: the legacy bool-returning verify_kzg_proof of
src/lib.rs, one of the two functions named verify_kzg_proof that the claim covers,
returns the boolean rejection result false, not a BadArgs error, when the commitment
bytes fail G1 decompression (48 zero bytes, compression flag clear). -/
theorem C1_counterexample :
    lib_verify_kzg_proof unitModel (List.replicate 48 0) (List.replicate 32 0)
      (List.replicate 32 0) (List.replicate 48 0) unitSettings = false := by
  decide

/-- C2 (amended): when blobs.len() is at least 2, a commitments or proofs vector whose
length differs from blobs makes verify_blob_kzg_proof_batch return InvalidBytesLength
without a boolean result or a panic.  The empty-blobs and single-blob fast paths of
the source run before these length checks, so mismatched lengths with 0 or 1 blobs are
not reported this way; see the counterexample. -/
theorem C2_batch_length_mismatch_error (M : CurveModel)
    (blobs commitments_bytes proofs_bytes : List (List Nat)) (s : KzgSettings M)
    (h2 : 2 ≤ blobs.length)
    (hmis : blobs.length ≠ commitments_bytes.length ∨
      blobs.length ≠ proofs_bytes.length) :
    ∃ msg, KzgProof.verify_blob_kzg_proof_batch M blobs commitments_bytes proofs_bytes s
      = some (.error (.InvalidBytesLength msg)) := by
  unfold KzgProof.verify_blob_kzg_proof_batch
  rw [if_neg (by omega : ¬blobs.length = 0), if_neg (by omega : ¬blobs.length = 1)]
  by_cases hc : blobs.length ≠ commitments_bytes.length
  · rw [if_pos hc]
    exact ⟨"Invalid commitments length", rfl⟩
  · have hp : blobs.length ≠ proofs_bytes.length := by tauto
    rw [if_neg hc, if_pos hp]
    exact ⟨"Invalid proofs length", rfl⟩

/-- Witness for C2 with two blobs and a single commitment. -/
theorem C2_witness :
    ∃ msg, KzgProof.verify_blob_kzg_proof_batch unitModel [[], []] [[]] [[], []]
      unitSettings = some (.error (.InvalidBytesLength msg)) :=
  C2_batch_length_mismatch_error unitModel [[], []] [[]] [[], []] unitSettings
    (by decide) (Or.inl (by decide))

/-- Counterexample for C2 as stated: an empty blobs vector with a nonempty commitments
vector is a length mismatch, yet the empty fast path returns the boolean Ok(true)
before any length check runs. -/
theorem C2_counterexample :
    KzgProof.verify_blob_kzg_proof_batch unitModel [] [List.replicate 48 0] []
      unitSettings = some (.ok true) := by
  rfl

/-- C8: a batch of exactly one element takes the single-element fast path, which
delegates to verify_blob_kzg_proof on index 0 of each vector, so the two calls return
the identical Result. -/
theorem C8_single_batch_eq_single (M : CurveModel) (blob cb pb : List Nat)
    (s : KzgSettings M) :
    KzgProof.verify_blob_kzg_proof_batch M [blob] [cb] [pb] s =
      KzgProof.verify_blob_kzg_proof M blob cb pb s := by
  rfl
